import Mathlib

/-!
Verification of dahernan/breaker: circuit breaker and windowed health counters.

A shallow embedding of `counters.go` and `breaker.go`.

Modelling conventions.

* `time.Time` is a natural number of nanoseconds elapsed since the zero time
  instant (January 1, year 1, 00:00:00 UTC); the zero value of `time.Time` is
  `0` and `IsZero` tests for it.  Every function that reads `time.Now()` takes
  the clock reading as an explicit argument, one argument per read, in the
  order in which the source reads them.
* `time.Duration` is an integer number of nanoseconds; `Time.Sub` saturates at
  the `int64` bounds as the Go library does.
* `int64` counters are exact integers (wrap-around after `2^63` recorded events
  is not modelled).
* A finite `float64` is `mant * 2 ^ exp` (`Float64`); conversion from `int64`,
  division and multiplication round the exact result to the nearest `float64`,
  ties to even, as IEEE 754 arithmetic does (infinities and NaN are not
  modelled: `doSummary` never divides by zero and its values stay far below the
  largest `float64`).  `HealthSummary.ErrorPercentage` and
  `Options.ErrorsPercentage` hold the rational value of the `float64`.
* The event loop of `HealthCounts` processes one request at a time; `Success`,
  `Fail` and `Summary` are modelled by the handler the loop runs for them.
  A Go run-time failure (index out of range, integer division by zero) is the
  result `none`.
* Goroutines started by `Call` are returned as data (`spawned`) and are run by
  `Breaker.runSpawned`; the unbuffered `changes` channel is modelled by the
  list of values whose send was attempted and the list of values delivered,
  given whether a receiver is ready.
-/

namespace CircuitBreaker

/-! ## Errors -/

/-- Go `error` values: the two package-level errors and any other error. -/
inductive GoError where
  | ErrBreakerOpen
  | ErrNumberOfSecondsToStoreOutOfBounds
  | other (code : Nat)
  deriving DecidableEq, Repr

/-! ## Time -/

/-- Go `time.Second`; a `time.Duration` is an integer number of nanoseconds. -/
def Second : Int := 1000000000

/-- Smallest `time.Duration`. -/
def minDuration : Int := -(2 ^ 63)

/-- Largest `time.Duration`. -/
def maxDuration : Int := 2 ^ 63 - 1

/-- Go `Time.IsZero`; a `time.Time` is a natural number of nanoseconds since the
zero time instant. -/
def Time.IsZero (t : Nat) : Bool := t == 0

/-- Go `Time.Sub`: the duration `t - u`, saturated to the `int64` range. -/
def Time.Sub (t u : Nat) : Int :=
  let d : Int := (t : Int) - (u : Int)
  if d > maxDuration then maxDuration
  else if d < minDuration then minDuration
  else d

/-- Go `Time.Second`: the second offset within the minute, in `0..59`. -/
def Time.Second (t : Nat) : Int := ((t / 1000000000) % 60 : Nat)

/-! ## float64 -/

/-- A finite Go `float64`: the value `mant * 2 ^ exp`. -/
structure Float64 where
  mant : Int
  exp : Int
  deriving DecidableEq, Repr

/-- The rational value of a `float64`. -/
def Float64.toRat (x : Float64) : ℚ := (x.mant : ℚ) * (2 : ℚ) ^ x.exp

/-- The integer nearest to `n / d`, ties to the even one. -/
def roundHalfEven (n d : Nat) : Nat :=
  if 2 * (n % d) < d then n / d
  else if d < 2 * (n % d) then n / d + 1
  else if (n / d) % 2 = 0 then n / d
  else n / d + 1

/-- Base-2 logarithm by repeated halving, `fuel` bounding the number of steps. -/
def log2Fuel : Nat → Nat → Nat
  | 0, _ => 0
  | fuel + 1, n => if n < 2 then 0 else log2Fuel fuel (n / 2) + 1

/-- The position of the leading bit of `n`: `floor (log2 n)` for `n > 0`. -/
def bitLog2 (n : Nat) : Nat := log2Fuel n n

/-- For `a, d > 0`: `floor (log2 (a / d))`. -/
def floorLog2 (a d : Nat) : Int :=
  if (if 0 ≤ (bitLog2 a : Int) - (bitLog2 d : Int)
      then decide (d * 2 ^ ((bitLog2 a : Int) - (bitLog2 d : Int)).toNat ≤ a)
      else decide (d ≤ a * 2 ^ ((bitLog2 d : Int) - (bitLog2 a : Int)).toNat)) = true
  then (bitLog2 a : Int) - (bitLog2 d : Int)
  else (bitLog2 a : Int) - (bitLog2 d : Int) - 1

/-- The exponent of the `float64` nearest to `a / d`: the leading bit of the
53-bit significand is at `floor (log2 (a / d))`; subnormal results keep the
smallest exponent. -/
def Float64.exponentOf (a d : Nat) : Int := max (floorLog2 a d - 52) (-1074)

/-- The significand: `a / d / 2 ^ e` rounded to an integer, ties to even. -/
def Float64.significandOf (a d : Nat) (e : Int) : Nat :=
  if 0 ≤ e then roundHalfEven a (d * 2 ^ e.toNat)
  else roundHalfEven (a * 2 ^ (-e).toNat) d

/-- The `float64` nearest to `n / d` (`d > 0`), ties to even: IEEE 754
round-to-nearest-even. -/
def Float64.round (n : Int) (d : Nat) : Float64 :=
  if n = 0 then { mant := 0, exp := 0 }
  else
    { mant := n.sign *
        (Float64.significandOf n.natAbs d (Float64.exponentOf n.natAbs d) : Nat)
      exp := Float64.exponentOf n.natAbs d }

/-- Go `float64(x)` for an integer `x`. -/
def Float64.ofInt (x : Int) : Float64 := Float64.round x 1

/-- Go `x / y` on `float64` (`y` not zero): the exact quotient, rounded. -/
def Float64.div (x y : Float64) : Float64 :=
  if y.exp ≤ x.exp then
    Float64.round (y.mant.sign * x.mant * 2 ^ (x.exp - y.exp).toNat) y.mant.natAbs
  else
    Float64.round (y.mant.sign * x.mant) (y.mant.natAbs * 2 ^ (y.exp - x.exp).toNat)

/-- Go `x * y` on `float64`: the exact product, rounded. -/
def Float64.mul (x y : Float64) : Float64 :=
  if 0 ≤ x.exp + y.exp then Float64.round (x.mant * y.mant * 2 ^ (x.exp + y.exp).toNat) 1
  else Float64.round (x.mant * y.mant) (2 ^ (-(x.exp + y.exp)).toNat)

/-- The constant `100.0`. -/
def Float64.hundred : Float64 := { mant := 100, exp := 0 }

/-! ## counters.go -/

/-- Go `HealthSummary`. -/
structure HealthSummary where
  Failures : Int
  Success : Int
  Total : Int
  ErrorPercentage : ℚ
  LastFailure : Nat
  LastSuccess : Nat
  deriving DecidableEq, Repr

/-- Go `HealthCountsBucket`. -/
structure HealthCountsBucket where
  failures : Int
  success : Int
  lastWrite : Nat
  deriving DecidableEq, Repr

/-- Go `HealthCounts` (data fields; the channels and the context carry no data). -/
structure HealthCounts where
  values : List HealthCountsBucket
  buckets : Int
  window : Int
  lastFailure : Nat
  lastSuccess : Nat
  deriving DecidableEq, Repr

/-- The zero value of `HealthCountsBucket`. -/
def HealthCountsBucket.zero : HealthCountsBucket :=
  { failures := 0, success := 0, lastWrite := 0 }

/-- Go `NewHealthCounts`. -/
def NewHealthCounts (numberOfSecondsToStore : Int) : Except GoError HealthCounts :=
  if numberOfSecondsToStore ≤ 0 ∨ numberOfSecondsToStore > 60 then
    .error GoError.ErrNumberOfSecondsToStoreOutOfBounds
  else
    .ok { buckets := numberOfSecondsToStore
          window := numberOfSecondsToStore * Second
          values := List.replicate numberOfSecondsToStore.toNat HealthCountsBucket.zero
          lastFailure := 0
          lastSuccess := 0 }

/-- Go `HealthCountsBucket.reset`. -/
def HealthCountsBucket.reset (c : HealthCountsBucket) : HealthCountsBucket :=
  { c with failures := 0, success := 0 }

/-- The index computed by `bucket`: `now.Second() % hc.buckets` (Go `%` truncates);
`none` when the modulus is zero. -/
def HealthCounts.index (hc : HealthCounts) (now : Nat) : Option Nat :=
  if hc.buckets = 0 then none
  else some (Int.tmod (Time.Second now) hc.buckets).toNat

/-- Go `HealthCounts.bucket`: the counter after the selected bucket has been
reset if stale and stamped with `now`, together with the index of that bucket
(the source returns a pointer to it). -/
def HealthCounts.bucket (hc : HealthCounts) (now : Nat) : Option (HealthCounts × Nat) :=
  match hc.index now with
  | none => none
  | some index =>
    match hc.values[index]? with
    | none => none
    | some v =>
      let v1 :=
        if !Time.IsZero v.lastWrite then
          (if Time.Sub now v.lastWrite > hc.window then v.reset else v)
        else v
      let v2 := { v1 with lastWrite := now }
      some ({ hc with values := hc.values.set index v2 }, index)

/-- Go `HealthCounts.doSuccess`; `now` is the clock read by `bucket`, `now2` the
one stored in `lastSuccess`. -/
def HealthCounts.doSuccess (h : HealthCounts) (now now2 : Nat) : Option HealthCounts :=
  match h.bucket now with
  | none => none
  | some (h1, index) =>
    match h1.values[index]? with
    | none => none
    | some v =>
      some { h1 with
        values := h1.values.set index { v with success := v.success + 1 }
        lastSuccess := now2 }

/-- Go `HealthCounts.doFail`; `now` is the clock read by `bucket`, `now2` the
one stored in `lastFailure`. -/
def HealthCounts.doFail (h : HealthCounts) (now now2 : Nat) : Option HealthCounts :=
  match h.bucket now with
  | none => none
  | some (h1, index) =>
    match h1.values[index]? with
    | none => none
    | some v =>
      some { h1 with
        values := h1.values.set index { v with failures := v.failures + 1 }
        lastFailure := now2 }

/-- The condition under which `doSummary` adds a bucket to the sums. -/
def HealthCounts.included (b : HealthCounts) (now : Nat) (value : HealthCountsBucket) : Bool :=
  !Time.IsZero value.lastWrite && decide (Time.Sub now value.lastWrite ≤ b.window)

/-- The zero value of `HealthSummary`. -/
def HealthSummary.zero : HealthSummary :=
  { Failures := 0, Success := 0, Total := 0, ErrorPercentage := 0,
    LastFailure := 0, LastSuccess := 0 }

/-- Go `HealthCounts.doSummary`. -/
def HealthCounts.doSummary (b : HealthCounts) (now : Nat) : HealthSummary :=
  let sum := b.values.foldl
    (fun (sum : HealthSummary) value =>
      if b.included now value then
        { sum with Success := sum.Success + value.success
                   Failures := sum.Failures + value.failures }
      else sum)
    HealthSummary.zero
  let total := sum.Success + sum.Failures
  { sum with
    Total := total
    ErrorPercentage :=
      if total = 0 then 0
      else (Float64.mul (Float64.div (Float64.ofInt sum.Failures) (Float64.ofInt total))
        Float64.hundred).toRat
    LastFailure := b.lastFailure
    LastSuccess := b.lastSuccess }

/-- Go `HealthCounts.Success`: the request is handled by `doSuccess`. -/
def HealthCounts.Success (h : HealthCounts) (now now2 : Nat) : Option HealthCounts :=
  h.doSuccess now now2

/-- Go `HealthCounts.Fail`: the request is handled by `doFail`. -/
def HealthCounts.Fail (h : HealthCounts) (now now2 : Nat) : Option HealthCounts :=
  h.doFail now now2

/-- Go `HealthCounts.Summary`: the request is handled by `doSummary`. -/
def HealthCounts.Summary (m : HealthCounts) (now : Nat) : HealthSummary :=
  m.doSummary now

/-! ## breaker.go -/

/-- Go `CloseState`. -/
def CloseState : Nat := 0

/-- Go `OpenState`. -/
def OpenState : Nat := 1

/-- Go `Options`. -/
structure Options where
  ErrorsPercentage : ℚ
  MinimumNumberOfRequest : Int
  NumberOfSecondsToStore : Int
  deriving DecidableEq, Repr

/-- Go `OptionsDefaults`. -/
def OptionsDefaults : Options :=
  { ErrorsPercentage := 50, MinimumNumberOfRequest := 20, NumberOfSecondsToStore := 10 }

/-- Go `Breaker` (the `changes` channel holds no data between operations). -/
structure Breaker where
  state : Nat
  healthCounts : HealthCounts
  options : Options
  deriving DecidableEq, Repr

/-- Go `NewBreaker`. -/
def NewBreaker (opt : Options) : Except GoError Breaker :=
  match NewHealthCounts opt.NumberOfSecondsToStore with
  | .error err => .error err
  | .ok hc => .ok { state := CloseState, options := opt, healthCounts := hc }

/-- The policy of `checkState` applied to a summary. -/
def checkStateOf (options : Options) (counts : HealthSummary) : Nat :=
  if counts.Total < options.MinimumNumberOfRequest then CloseState
  else if counts.ErrorPercentage ≥ options.ErrorsPercentage then OpenState
  else CloseState

/-- Go `Breaker.checkState`; `now` is the clock read by the summary. -/
def Breaker.checkState (b : Breaker) (now : Nat) : Nat :=
  checkStateOf b.options (b.healthCounts.Summary now)

/-- Go `atomic.CompareAndSwapUint32` on `b.state`. -/
def Breaker.compareAndSwap (b : Breaker) (old new : Nat) : Breaker × Bool :=
  if b.state = old then ({ b with state := new }, true) else (b, false)

/-- What one run of `update` leaves behind: the value returned, the breaker,
the values for which a send on `changes` was attempted and those delivered. -/
structure UpdateResult where
  ret : Nat
  breaker : Breaker
  attempted : List Nat
  delivered : List Nat
  deriving DecidableEq, Repr

/-- Go `Breaker.update`, run without another goroutine writing `b.state` in
between; `now` is the clock read by the summary, `receiverReady` tells whether a
goroutine is blocked receiving from `changes` when the `select` runs. -/
def Breaker.update (b : Breaker) (now : Nat) (receiverReady : Bool) : UpdateResult :=
  let state := b.state
  let newState := b.checkState now
  if state = newState then
    { ret := state, breaker := b, attempted := [], delivered := [] }
  else
    match b.compareAndSwap state newState with
    | (b1, true) =>
      { ret := newState, breaker := b1, attempted := [newState],
        delivered := if receiverReady then [newState] else [] }
    | (b1, false) =>
      { ret := state, breaker := b1, attempted := [], delivered := [] }

/-- The goroutine started by `Call`: `go b.fail()` or `go b.success()`. -/
inductive Spawned where
  | fail
  | success
  deriving DecidableEq, Repr

/-- What the synchronous part of `Call` leaves behind: the error returned (`none`
is Go `nil`), the breaker, the state of the world the operation acts on, the
goroutine started, and the notifications of the `update` it may have run. -/
structure CallResult (σ : Type) where
  err : Option GoError
  breaker : Breaker
  world : σ
  spawned : Option Spawned
  attempted : List Nat
  delivered : List Nat

/-- Go `Breaker.Call`.  The operation `fn` acts on a world `w` and returns an
error or `nil`; `now` is the clock read by `update` when it runs. -/
def Breaker.Call {σ : Type} (b : Breaker) (fn : σ → Option GoError × σ) (w : σ)
    (now : Nat) (receiverReady : Bool) : CallResult σ :=
  let state := b.state
  let run (b1 : Breaker) (attempted delivered : List Nat) : CallResult σ :=
    let r := fn w
    match r.1 with
    | some e =>
      { err := some e, breaker := b1, world := r.2, spawned := some Spawned.fail,
        attempted := attempted, delivered := delivered }
    | none =>
      { err := none, breaker := b1, world := r.2, spawned := some Spawned.success,
        attempted := attempted, delivered := delivered }
  if state = OpenState then
    let u := b.update now receiverReady
    if u.ret = OpenState then
      { err := some GoError.ErrBreakerOpen, breaker := u.breaker, world := w,
        spawned := none, attempted := u.attempted, delivered := u.delivered }
    else run u.breaker u.attempted u.delivered
  else run b [] []

/-- Go `Breaker.Health`. -/
def Breaker.Health (b : Breaker) (now : Nat) : HealthSummary :=
  b.healthCounts.Summary now

/-- Go `Breaker.State`. -/
def Breaker.State (b : Breaker) : Nat := b.state

/-- Go `Breaker.GetOptions`. -/
def Breaker.GetOptions (b : Breaker) : Options := b.options

/-- Go `Breaker.success`; `now`, `now2` are the clocks read by `Success`, `now3`
the one read by `update`. -/
def Breaker.success (b : Breaker) (now now2 now3 : Nat) (receiverReady : Bool) :
    Option UpdateResult :=
  match b.healthCounts.Success now now2 with
  | none => none
  | some hc => some (Breaker.update { b with healthCounts := hc } now3 receiverReady)

/-- Go `Breaker.fail`; `now`, `now2` are the clocks read by `Fail`, `now3` the
one read by `update`. -/
def Breaker.fail (b : Breaker) (now now2 now3 : Nat) (receiverReady : Bool) :
    Option UpdateResult :=
  match b.healthCounts.Fail now now2 with
  | none => none
  | some hc => some (Breaker.update { b with healthCounts := hc } now3 receiverReady)

/-- Runs the goroutine a `Call` started, to completion. -/
def Breaker.runSpawned (b : Breaker) (s : Option Spawned) (now now2 now3 : Nat)
    (receiverReady : Bool) : Option UpdateResult :=
  match s with
  | none => some { ret := b.state, breaker := b, attempted := [], delivered := [] }
  | some Spawned.fail => b.fail now now2 now3 receiverReady
  | some Spawned.success => b.success now now2 now3 receiverReady

/-! ## Requests to the event loop and scenarios -/

/-- A request received by `HealthCounts.run`, with the clocks its handler reads. -/
inductive Request where
  | success (now now2 : Nat)
  | fail (now now2 : Nat)
  | summary (now : Nat)
  deriving DecidableEq, Repr

/-- One iteration of the `select` of Go `HealthCounts.run`: the counter after
the handler and the summaries sent on `summaryOutChan`. -/
def HealthCounts.step (hc : HealthCounts) : Request → Option (HealthCounts × List HealthSummary)
  | .success now now2 => (hc.doSuccess now now2).map (fun h => (h, []))
  | .fail now now2 => (hc.doFail now now2).map (fun h => (h, []))
  | .summary now => some (hc, [hc.doSummary now])

/-- Go `HealthCounts.run` serving the given requests in order. -/
def HealthCounts.run (hc : HealthCounts) : List Request → Option (HealthCounts × List HealthSummary)
  | [] => some (hc, [])
  | r :: rs =>
    match hc.step r with
    | none => none
    | some (hc1, out1) =>
      match HealthCounts.run hc1 rs with
      | none => none
      | some (hc2, out2) => some (hc2, out1 ++ out2)

/-- The clock read by `bucket` when the request records an outcome. -/
def Request.recordTime : Request → Option Nat
  | .success now _ => some now
  | .fail now _ => some now
  | .summary _ => none

/-- Whether the request is a `Success`. -/
def Request.isSuccess : Request → Bool
  | .success _ _ => true
  | _ => false

/-- Whether the request is a `Fail`. -/
def Request.isFail : Request → Bool
  | .fail _ _ => true
  | _ => false

/-- Go `OptionsForTest` of `breaker_test.go`. -/
def OptionsForTest : Options :=
  { ErrorsPercentage := 50, MinimumNumberOfRequest := 3, NumberOfSecondsToStore := 2 }

/-- Go `returnAnError` of `breaker_test.go`, on a world that counts invocations. -/
def returnAnError (w : Nat) : Option GoError × Nat := (some (GoError.other 0), w + 1)

/-- Go `returnNilError` of `breaker_test.go`, on a world that counts invocations. -/
def returnNilError (w : Nat) : Option GoError × Nat := (none, w + 1)

/-- An operation that itself fails with `ErrBreakerOpen`, as a call through an
inner open breaker does. -/
def returnBreakerOpen (w : Nat) : Option GoError × Nat := (some GoError.ErrBreakerOpen, w + 1)

/-- The counter `NewHealthCounts 2` returns. -/
def counts2 : HealthCounts :=
  { values := [HealthCountsBucket.zero, HealthCountsBucket.zero], buckets := 2,
    window := 2000000000, lastFailure := 0, lastSuccess := 0 }

/-- The breaker `NewBreaker OptionsForTest` returns. -/
def closedBreaker : Breaker :=
  { state := CloseState, healthCounts := counts2, options := OptionsForTest }

/-- An open breaker whose counter holds no event. -/
def openBreaker : Breaker :=
  { state := OpenState, healthCounts := counts2, options := OptionsForTest }

/-- The counter is one `NewHealthCounts` can have built: as many buckets as
`buckets` says, at least one, and a window inside the `int64` range and below
its maximum. -/
def HealthCounts.WellFormed (hc : HealthCounts) : Prop :=
  0 < hc.buckets ∧ (hc.values.length : Int) = hc.buckets ∧
    minDuration ≤ hc.window ∧ hc.window < maxDuration

/-- Every bucket is either untouched (unset lastWrite, zero counts) or was last
written at a set time no more than the window before `hi`. -/
def HealthCounts.Live (hc : HealthCounts) (hi : Nat) : Prop :=
  ∀ v ∈ hc.values,
    (v.lastWrite = 0 ∧ v.success = 0 ∧ v.failures = 0) ∨
    (0 < v.lastWrite ∧ (hi : Int) - (v.lastWrite : Int) ≤ hc.window)

/-- The successes stored in all buckets. -/
def HealthCounts.sumSuccess (hc : HealthCounts) : Int := (hc.values.map (·.success)).sum

/-- The failures stored in all buckets. -/
def HealthCounts.sumFailures (hc : HealthCounts) : Int := (hc.values.map (·.failures)).sum

/-- A counter with a live bucket (2 successes, 1 failure) and a stale one
(4 successes, 4 failures), read at second 15 with a window of 2 seconds. -/
def countsLiveAndStale : HealthCounts :=
  { values := [{ failures := 4, success := 4, lastWrite := 12000000000 },
               { failures := 1, success := 2, lastWrite := 15000000000 }],
    buckets := 2, window := 2000000000, lastFailure := 0, lastSuccess := 0 }

/-- The number of records made at a clock reading `t` with `now - t <= w`. -/
def recordsInWindow (reqs : List Request) (now : Nat) (w : Int) : Nat :=
  (reqs.filterMap Request.recordTime).countP (fun t => decide ((now : Int) - (t : Int) ≤ w))

/-- Two records 4 seconds apart that select the same bucket of a 7-bucket
counter (seconds 56 and 0 of the minute), and a summary request. -/
def aliasingRequests : List Request :=
  [.fail 56000000000 56000000001, .summary 57000000000, .success 60000000000 60000000001]

/-- Two successes 9.5 seconds apart that select the same bucket of a 10-bucket
counter (seconds 40 and 50 of the minute). -/
def keptAliveRequests : List Request :=
  [.success 100500000000 100500000001, .success 110000000000 110000000001]

/-- The clocks read while one `Call` and the goroutine it starts run, in order:
by `update` inside `Call` (read only when the loaded state is Open), by
`bucket`, for the last-event marker, and by `update` inside the goroutine. -/
structure CallClocks where
  call : Nat
  bucket : Nat
  mark : Nat
  update : Nat
  deriving DecidableEq, Repr

/-- One `Call` to be made: the operation, the clocks read and whether a receiver
is ready on `changes`. -/
structure CallStep (σ : Type) where
  fn : σ → Option GoError × σ
  clocks : CallClocks
  receiverReady : Bool

/-- Calls made one after the other, the goroutine each one starts running to
completion before the next call: the breaker and the world afterwards and the
errors the calls returned, in order. -/
def Breaker.callsInSequence {σ : Type} (b : Breaker) (w : σ) :
    List (CallStep σ) → Option (Breaker × σ × List (Option GoError))
  | [] => some (b, w, [])
  | c :: cs =>
    let r := b.Call c.fn w c.clocks.call c.receiverReady
    match r.breaker.runSpawned r.spawned c.clocks.bucket c.clocks.mark c.clocks.update
        c.receiverReady with
    | none => none
    | some u =>
      match Breaker.callsInSequence u.breaker r.world cs with
      | none => none
      | some (b2, w2, errs) => some (b2, w2, r.err :: errs)

/-- The three failing calls of `TestAfter3ErrorsTheCircuitShouldBeOpen`, a few
milliseconds apart. -/
def threeFailingCalls : List (CallStep Nat) :=
  [{ fn := returnAnError, receiverReady := false,
     clocks := { call := 100000000000, bucket := 100000001000, mark := 100000002000,
                 update := 100000003000 } },
   { fn := returnAnError, receiverReady := false,
     clocks := { call := 100001000000, bucket := 100001001000, mark := 100001002000,
                 update := 100001003000 } },
   { fn := returnAnError, receiverReady := true,
     clocks := { call := 100002000000, bucket := 100002001000, mark := 100002002000,
                 update := 100002003000 } }]

/-- Every bucket holds counts that are not negative. -/
def HealthCounts.NonNeg (hc : HealthCounts) : Prop :=
  ∀ v ∈ hc.values, 0 ≤ v.success ∧ 0 ≤ v.failures

/-- A bucket whose lastWrite is unset holds zero counts. -/
def HealthCounts.UnsetZero (hc : HealthCounts) : Prop :=
  ∀ v ∈ hc.values, v.lastWrite = 0 → v.success = 0 ∧ v.failures = 0

/-- The clock read by `bucket` for a record is a set time (not the zero time). -/
def Request.clockSet (r : Request) : Prop :=
  ∀ t, r.recordTime = some t → 0 < t

/-- The clock a `Success` request stores in `lastSuccess`. -/
def Request.successMark : Request → Option Nat
  | .success _ now2 => some now2
  | _ => none

/-- The clock a `Fail` request stores in `lastFailure`. -/
def Request.failMark : Request → Option Nat
  | .fail _ now2 => some now2
  | _ => none

/-- The clock taken by the most recent `Success` among the requests served, in
the order served; the zero time when there is none. -/
def lastSuccessMark (reqs : List Request) : Nat :=
  ((reqs.filterMap Request.successMark).getLast?).getD 0

/-- The clock taken by the most recent `Fail` among the requests served, in the
order served; the zero time when there is none. -/
def lastFailureMark (reqs : List Request) : Nat :=
  ((reqs.filterMap Request.failMark).getLast?).getD 0

/-- The summary is in range: failures between 0 and the total, and an error
percentage that is 0 for an empty total and the `float64` value of
`float64(Failures) / float64(Total) * 100.0` otherwise, hence between 0 and 100. -/
def HealthSummary.InRange (s : HealthSummary) : Prop :=
  0 ≤ s.Failures ∧ s.Failures ≤ s.Total ∧
    (s.Total = 0 → s.ErrorPercentage = 0) ∧
    (s.Total ≠ 0 → s.ErrorPercentage =
      (Float64.mul (Float64.div (Float64.ofInt s.Failures) (Float64.ofInt s.Total))
        Float64.hundred).toRat) ∧
    0 ≤ s.ErrorPercentage ∧ s.ErrorPercentage ≤ 100

/-- 71 successes and 29 failures served within one second. -/
def hundredRequests : List Request :=
  List.replicate 71 (.success 100000000000 100000000001) ++
    List.replicate 29 (.fail 100000000000 100000000001)

/-- The counter `NewHealthCounts 3` returns. -/
def counts3 : HealthCounts :=
  { values := [HealthCountsBucket.zero, HealthCountsBucket.zero, HealthCountsBucket.zero],
    buckets := 3, window := 3000000000, lastFailure := 0, lastSuccess := 0 }

/-- Two successes and one failure served within one second. -/
def oneInThreeRequests : List Request :=
  [.success 100000000000 100000000001, .success 100000001000 100000001001,
   .fail 100000002000 100000002001]

/-- The 3-bucket counter after `oneInThreeRequests` (second 40 selects bucket 1). -/
def countsOneInThree : HealthCounts :=
  { values := [HealthCountsBucket.zero,
               { failures := 1, success := 2, lastWrite := 100000002000 },
               HealthCountsBucket.zero],
    buckets := 3, window := 3000000000,
    lastFailure := 100000002001, lastSuccess := 100000001001 }

/-- Four requests served by a 3-bucket counter within one second, as in
`TestErrorPercentage`: two successes, a summary, two failures. -/
def mixedRequests : List Request :=
  [.success 100000000000 100000000001, .success 100000001000 100000001001,
   .summary 100000002000,
   .fail 100000003000 100000003001, .fail 100000004000 100000004001]

/-- Two successes and two failures served within one second. -/
def atThresholdRequests : List Request :=
  [.success 100000000000 100000000001, .success 100000001000 100000001001,
   .fail 100000002000 100000002001, .fail 100000003000 100000003001]

/-- The 2-bucket counter after `atThresholdRequests`. -/
def countsAtThreshold : HealthCounts :=
  { values := [{ failures := 2, success := 2, lastWrite := 100000003000 },
               HealthCountsBucket.zero],
    buckets := 2, window := 2000000000,
    lastFailure := 100000003001, lastSuccess := 100000001001 }

/-- A Closed breaker with the options of the test (threshold 50, minimum 3)
whose counter holds two successes and two failures. -/
def breakerAtThreshold : Breaker :=
  { state := CloseState, healthCounts := countsAtThreshold, options := OptionsForTest }

/-! ## Theorems -/

/-- The policy yields Closed or Open, and Open exactly above both thresholds. -/
theorem checkStateOf_cases (options : Options) (counts : HealthSummary) :
    (checkStateOf options counts = OpenState ∧
      counts.Total ≥ options.MinimumNumberOfRequest ∧
      counts.ErrorPercentage ≥ options.ErrorsPercentage) ∨
    (checkStateOf options counts = CloseState ∧
      ¬ (counts.Total ≥ options.MinimumNumberOfRequest ∧
        counts.ErrorPercentage ≥ options.ErrorsPercentage)) := by
  unfold checkStateOf
  by_cases h1 : counts.Total < options.MinimumNumberOfRequest
  · right
    simp only [h1, if_true, true_and]
    exact fun h => absurd h1 (not_lt.mpr h.1)
  · by_cases h2 : counts.ErrorPercentage ≥ options.ErrorsPercentage
    · left
      simp only [h1, h2, if_true, if_false, true_and]
      exact ⟨not_lt.mp h1, trivial⟩
    · right
      simp only [h1, if_false, if_neg h2, true_and]
      exact fun h => h2 h.2

/-- The two states differ. -/
theorem closeState_ne_openState : CloseState ≠ OpenState := by decide

/-- For a window inside the `int64` range and below its maximum, comparing the
saturated difference with the window is comparing the exact difference. -/
theorem sub_le_window_iff (t u : Nat) (w : Int)
    (h1 : minDuration ≤ w) (h2 : w < maxDuration) :
    Time.Sub t u ≤ w ↔ (t : Int) - (u : Int) ≤ w := by
  unfold Time.Sub
  simp only
  split_ifs with ha hb
  · constructor
    · intro h; omega
    · intro h; omega
  · constructor
    · intro _; omega
    · intro _; exact h1
  · exact Iff.rfl

/-- The bucket test of `doSummary`, with the exact difference. -/
theorem included_iff (b : HealthCounts) (now : Nat) (v : HealthCountsBucket)
    (h1 : minDuration ≤ b.window) (h2 : b.window < maxDuration) :
    b.included now v = true ↔
      (v.lastWrite ≠ 0 ∧ (now : Int) - (v.lastWrite : Int) ≤ b.window) := by
  unfold HealthCounts.included Time.IsZero
  simp [sub_le_window_iff now v.lastWrite b.window h1 h2]

/-- The fold of `doSummary` adds the counts of the included buckets and touches
nothing else. -/
theorem foldl_summary (b : HealthCounts) (now : Nat) (l : List HealthCountsBucket)
    (init : HealthSummary) :
    (l.foldl
      (fun (sum : HealthSummary) value =>
        if b.included now value then
          { sum with Success := sum.Success + value.success
                     Failures := sum.Failures + value.failures }
        else sum) init) =
      { init with
        Success := init.Success + ((l.filter (b.included now)).map (·.success)).sum
        Failures := init.Failures + ((l.filter (b.included now)).map (·.failures)).sum } := by
  induction l generalizing init with
  | nil => simp
  | cons v l ih =>
    rw [List.foldl_cons, ih]
    by_cases hv : b.included now v = true
    · simp [hv, add_assoc]
    · simp [hv]

/-- The counts of a summary are the sums over the included buckets. -/
theorem doSummary_counts (b : HealthCounts) (now : Nat) :
    (b.doSummary now).Success = ((b.values.filter (b.included now)).map (·.success)).sum ∧
    (b.doSummary now).Failures = ((b.values.filter (b.included now)).map (·.failures)).sum ∧
    (b.doSummary now).Total = (b.doSummary now).Success + (b.doSummary now).Failures ∧
    (b.doSummary now).ErrorPercentage =
      (if (b.doSummary now).Total = 0 then 0
       else (Float64.mul (Float64.div (Float64.ofInt (b.doSummary now).Failures)
          (Float64.ofInt (b.doSummary now).Total)) Float64.hundred).toRat) ∧
    (b.doSummary now).LastFailure = b.lastFailure ∧
    (b.doSummary now).LastSuccess = b.lastSuccess := by
  unfold HealthCounts.doSummary
  simp only [foldl_summary]
  simp [HealthSummary.zero]

/-- With enough fuel the halving logarithm is `Nat.log2`. -/
theorem log2Fuel_eq (fuel n : Nat) (h : n ≤ fuel) : log2Fuel fuel n = Nat.log2 n := by
  induction fuel generalizing n with
  | zero =>
    have hn : n = 0 := by omega
    subst hn
    rw [log2Fuel, Nat.log2]
    rfl
  | succ f ih =>
    rw [log2Fuel, Nat.log2]
    by_cases h2 : n < 2
    · have h3 : ¬ (n ≥ 2) := by omega
      rw [if_pos h2, if_neg h3]
    · have h3 : n ≥ 2 := by omega
      rw [if_neg h2, if_pos h3, ih (n / 2) (by omega)]

/-- The leading bit: `2 ^ bitLog2 n <= n < 2 ^ (bitLog2 n + 1)` for `n > 0`. -/
theorem bitLog2_spec (n : Nat) (hn : 0 < n) :
    2 ^ bitLog2 n ≤ n ∧ n < 2 ^ (bitLog2 n + 1) := by
  have h : bitLog2 n = Nat.log2 n := log2Fuel_eq n n (le_refl _)
  rw [h]
  exact ⟨Nat.log2_self_le (by omega), Nat.lt_log2_self⟩

/-- The leading bit does not move down when the number grows. -/
theorem bitLog2_mono (a b : Nat) (ha : 0 < a) (hab : a ≤ b) : bitLog2 a ≤ bitLog2 b := by
  have h1 : bitLog2 a = Nat.log2 a := log2Fuel_eq a a (le_refl _)
  have h2 : bitLog2 b = Nat.log2 b := log2Fuel_eq b b (le_refl _)
  rw [h1, h2]
  rw [Nat.le_log2 (by omega)]
  exact le_trans (Nat.log2_self_le (by omega)) hab

/-- Rounding never goes below the quotient nor more than one above it. -/
theorem roundHalfEven_bounds (n d : Nat) :
    n / d ≤ roundHalfEven n d ∧ roundHalfEven n d ≤ n / d + 1 := by
  unfold roundHalfEven
  split_ifs <;> omega

/-- Rounding does not cross an integer from below. -/
theorem roundHalfEven_le (n d c : Nat) (hd : 0 < d) (h : n ≤ c * d) :
    roundHalfEven n d ≤ c := by
  have hdm := Nat.div_add_mod n d
  have hm : n / d ≤ c := by
    apply Nat.div_le_of_le_mul
    rw [Nat.mul_comm]
    exact h
  by_cases hlt : n / d < c
  · have := (roundHalfEven_bounds n d).2
    omega
  · have heq : n / d = c := by omega
    have hr : n % d = 0 := by
      rw [heq, Nat.mul_comm] at hdm
      omega
    unfold roundHalfEven
    rw [hr]
    simp only [Nat.mul_zero]
    rw [if_pos hd]
    exact hm

/-- Rounding does not cross an integer from above. -/
theorem roundHalfEven_ge (n d c : Nat) (hd : 0 < d) (h : c * d ≤ n) :
    c ≤ roundHalfEven n d :=
  le_trans ((Nat.le_div_iff_mul_le hd).mpr h) (roundHalfEven_bounds n d).1

/-- Rounding is monotone in the numerator. -/
theorem roundHalfEven_mono (n1 n2 d : Nat) (h : n1 ≤ n2) :
    roundHalfEven n1 d ≤ roundHalfEven n2 d := by
  have hq : n1 / d ≤ n2 / d := Nat.div_le_div_right h
  by_cases hlt : n1 / d < n2 / d
  · have h1 := (roundHalfEven_bounds n1 d).2
    have h2 := (roundHalfEven_bounds n2 d).1
    omega
  · have heq : n1 / d = n2 / d := by omega
    have hd1 := Nat.div_add_mod n1 d
    have hd2 := Nat.div_add_mod n2 d
    rw [heq] at hd1
    have hr : n1 % d ≤ n2 % d := by omega
    unfold roundHalfEven
    rw [heq]
    split_ifs <;> omega

/-- Dividing by one is exact. -/
theorem roundHalfEven_one (n : Nat) : roundHalfEven n 1 = n := by
  unfold roundHalfEven
  rw [Nat.mod_one, Nat.div_one]
  simp

/-- Comparing powers of two compares the exponents. -/
theorem two_pow_lt_imp (x y : Nat) (h : 2 ^ x < 2 ^ y) : x < y := by
  by_contra hn
  have h1 : 2 ^ y ≤ 2 ^ x := Nat.pow_le_pow_right (by decide) (by omega)
  omega

/-- A quotient below `2 ^ j` has its leading bit below `j`. -/
theorem floorLog2_lt (a d j : Nat) (ha : 0 < a) (hd : 0 < d) (h : a < 2 ^ j * d) :
    floorLog2 a d < (j : Int) := by
  obtain ⟨ha1, ha2⟩ := bitLog2_spec a ha
  obtain ⟨hd1, hd2⟩ := bitLog2_spec d hd
  have hk : (bitLog2 a : Int) - (bitLog2 d : Int) ≤ (j : Int) := by
    have h1 : 2 ^ bitLog2 a < 2 ^ (j + (bitLog2 d + 1)) := by
      rw [Nat.pow_add]
      calc 2 ^ bitLog2 a ≤ a := ha1
        _ < 2 ^ j * d := h
        _ ≤ 2 ^ j * 2 ^ (bitLog2 d + 1) := Nat.mul_le_mul_left _ (le_of_lt hd2)
    have h2 := two_pow_lt_imp _ _ h1
    omega
  unfold floorLog2
  split_ifs with hc h0 h1
  · -- the leading bit is at `k`, and `k >= 0`
    by_contra hn
    have hj : j ≤ ((bitLog2 a : Int) - (bitLog2 d : Int)).toNat := by omega
    have hdec : d * 2 ^ ((bitLog2 a : Int) - (bitLog2 d : Int)).toNat ≤ a :=
      of_decide_eq_true h0
    have h3 : 2 ^ j * d ≤ a :=
      calc 2 ^ j * d ≤ 2 ^ ((bitLog2 a : Int) - (bitLog2 d : Int)).toNat * d :=
            Nat.mul_le_mul_right _ (Nat.pow_le_pow_right (by decide) hj)
        _ = d * 2 ^ ((bitLog2 a : Int) - (bitLog2 d : Int)).toNat := Nat.mul_comm _ _
        _ ≤ a := hdec
    omega
  · omega
  · omega
  · omega

/-- The leading bit of an integer, as a quotient by one. -/
theorem floorLog2_one (a : Nat) (ha : 0 < a) : floorLog2 a 1 = (bitLog2 a : Int) := by
  obtain ⟨ha1, _⟩ := bitLog2_spec a ha
  have h1 : bitLog2 1 = 0 := by decide
  unfold floorLog2
  rw [h1]
  simp only [Nat.cast_zero, sub_zero, Int.toNat_ofNat, Nat.one_mul]
  have h0 : (0 : Int) ≤ (bitLog2 a : Int) := Int.ofNat_nonneg _
  rw [if_pos h0, if_pos (decide_eq_true ha1)]

/-- The leading bit of a quotient of equal numbers is at 0. -/
theorem floorLog2_self (a : Nat) : floorLog2 a a = 0 := by
  unfold floorLog2
  simp

/-- The significand is monotone in the numerator. -/
theorem significandOf_mono (a b d : Nat) (e : Int) (h : a ≤ b) :
    Float64.significandOf a d e ≤ Float64.significandOf b d e := by
  unfold Float64.significandOf
  split_ifs
  · exact roundHalfEven_mono a b _ h
  · exact roundHalfEven_mono _ _ d (Nat.mul_le_mul_right _ h)

/-- Rounding a non-negative quotient that is at most the integer `c < 2 ^ 52`
gives a non-negative `float64` with a non-positive exponent that is at most
`c`. -/
theorem round_bound (n : Int) (d c : Nat) (hn0 : 0 ≤ n) (hd : 0 < d)
    (hn : n ≤ (c : Int) * (d : Int)) (hc : c < 2 ^ 52) :
    0 ≤ (Float64.round n d).mant ∧ (Float64.round n d).exp ≤ 0 ∧
    (Float64.round n d).mant ≤ ((c * 2 ^ (-(Float64.round n d).exp).toNat : Nat) : Int) := by
  unfold Float64.round
  by_cases hz : n = 0
  · rw [if_pos hz]
    simp
  · rw [if_neg hz]
    have hpos : 0 < n := lt_of_le_of_ne hn0 (Ne.symm hz)
    have hsign : n.sign = 1 := Int.sign_eq_one_of_pos hpos
    have hcast : (n.natAbs : Int) = n := Int.natAbs_of_nonneg hn0
    have ha : 0 < n.natAbs := Int.natAbs_pos.mpr hz
    have hle : n.natAbs ≤ c * d := by
      have : (n.natAbs : Int) ≤ ((c * d : Nat) : Int) := by
        rw [hcast]
        push_cast
        exact hn
      exact_mod_cast this
    have hlt : n.natAbs < 2 ^ 52 * d :=
      lt_of_le_of_lt hle (Nat.mul_lt_mul_of_pos_right hc hd)
    have hfl := floorLog2_lt n.natAbs d 52 ha hd hlt
    have he : Float64.exponentOf n.natAbs d < 0 := by
      unfold Float64.exponentOf
      omega
    have hsig : Float64.significandOf n.natAbs d (Float64.exponentOf n.natAbs d) ≤
        c * 2 ^ (-(Float64.exponentOf n.natAbs d)).toNat := by
      unfold Float64.significandOf
      rw [if_neg (by omega)]
      apply roundHalfEven_le _ _ _ hd
      calc n.natAbs * 2 ^ (-(Float64.exponentOf n.natAbs d)).toNat
          ≤ c * d * 2 ^ (-(Float64.exponentOf n.natAbs d)).toNat :=
            Nat.mul_le_mul_right _ hle
        _ = c * 2 ^ (-(Float64.exponentOf n.natAbs d)).toNat * d := by ring
    simp only [hsign, one_mul]
    refine ⟨Int.ofNat_nonneg _, le_of_lt he, ?_⟩
    exact_mod_cast hsig

/-- The rational value of a `float64` bounded as `round_bound` says. -/
theorem toRat_bounds (x : Float64) (c : Nat) (h0 : 0 ≤ x.mant) (he : x.exp ≤ 0)
    (hm : x.mant ≤ ((c * 2 ^ (-x.exp).toNat : Nat) : Int)) :
    0 ≤ x.toRat ∧ x.toRat ≤ (c : ℚ) := by
  obtain ⟨k, hk⟩ : ∃ k : Nat, x.exp = -(k : Int) := ⟨(-x.exp).toNat, by omega⟩
  have hk2 : (-x.exp).toNat = k := by omega
  rw [hk2] at hm
  unfold Float64.toRat
  rw [hk, zpow_neg, zpow_natCast, ← div_eq_mul_inv]
  have hP : (0 : ℚ) < 2 ^ k := by positivity
  constructor
  · exact div_nonneg (by exact_mod_cast h0) (le_of_lt hP)
  · rw [div_le_iff₀ hP]
    have : (x.mant : ℚ) ≤ ((c * 2 ^ k : Nat) : ℚ) := by exact_mod_cast hm
    simpa using this

/-- The `float64` of a positive integer: its exponent puts the leading bit of
the significand at bit 52, the significand is that of the integer, and lies
between `2 ^ 52` and `2 ^ 53`. -/
theorem ofInt_pos (a : Nat) (ha : 0 < a) :
    (Float64.ofInt (a : Int)).exp = (bitLog2 a : Int) - 52 ∧
    (Float64.ofInt (a : Int)).mant =
      ((Float64.significandOf a 1 ((bitLog2 a : Int) - 52) : Nat) : Int) ∧
    (2 ^ 52 : Int) ≤ (Float64.ofInt (a : Int)).mant ∧
    (Float64.ofInt (a : Int)).mant ≤ (2 ^ 53 : Int) := by
  obtain ⟨ha1, ha2⟩ := bitLog2_spec a ha
  have hne : ¬ ((a : Int) = 0) := by omega
  have hsign : ((a : Int)).sign = 1 := Int.sign_eq_one_of_pos (by omega)
  have hexp : Float64.exponentOf a 1 = (bitLog2 a : Int) - 52 := by
    unfold Float64.exponentOf
    rw [floorLog2_one a ha]
    omega
  have hlo : 2 ^ 52 ≤ Float64.significandOf a 1 ((bitLog2 a : Int) - 52) ∧
      Float64.significandOf a 1 ((bitLog2 a : Int) - 52) ≤ 2 ^ 53 := by
    unfold Float64.significandOf
    by_cases he : (0 : Int) ≤ (bitLog2 a : Int) - 52
    · rw [if_pos he]
      obtain ⟨k, hk⟩ : ∃ k : Nat, bitLog2 a = 52 + k := ⟨bitLog2 a - 52, by omega⟩
      have hk2 : ((bitLog2 a : Int) - 52).toNat = k := by omega
      rw [hk2, Nat.one_mul]
      rw [hk, Nat.pow_add] at ha1
      have ha3 : a < 2 ^ 53 * 2 ^ k := by
        have : 52 + k + 1 = 53 + k := by omega
        rw [hk, this, Nat.pow_add] at ha2
        exact ha2
      exact ⟨roundHalfEven_ge a _ _ (by positivity) ha1,
        roundHalfEven_le a _ _ (by positivity) (le_of_lt ha3)⟩
    · rw [if_neg he]
      obtain ⟨k, hk⟩ : ∃ k : Nat, 52 = bitLog2 a + k := ⟨52 - bitLog2 a, by omega⟩
      have hk2 : (-((bitLog2 a : Int) - 52)).toNat = k := by omega
      rw [hk2, roundHalfEven_one]
      have h52 : 2 ^ 52 = 2 ^ bitLog2 a * 2 ^ k := by rw [← Nat.pow_add, ← hk]
      have h53 : 2 ^ 53 = 2 ^ (bitLog2 a + 1) * 2 ^ k := by
        rw [← Nat.pow_add]
        congr 1
        omega
      rw [h52, h53]
      exact ⟨Nat.mul_le_mul_right _ ha1, Nat.mul_le_mul_right _ (le_of_lt ha2)⟩
  have hov : Float64.ofInt (a : Int) =
      { mant := ((Float64.significandOf a 1 ((bitLog2 a : Int) - 52) : Nat) : Int)
        exp := (bitLog2 a : Int) - 52 } := by
    unfold Float64.ofInt Float64.round
    rw [if_neg hne, hsign, Int.natAbs_ofNat, hexp, one_mul]
  rw [hov]
  refine ⟨rfl, rfl, ?_, ?_⟩
  · have h := Int.ofNat_le.mpr hlo.1
    simp only [Nat.cast_pow, Nat.cast_ofNat] at h
    exact h
  · have h := Int.ofNat_le.mpr hlo.2
    simp only [Nat.cast_pow, Nat.cast_ofNat] at h
    exact h

/-- The `float64` of zero. -/
theorem ofInt_zero : Float64.ofInt 0 = { mant := 0, exp := 0 } := by
  unfold Float64.ofInt Float64.round
  rw [if_pos rfl]

/-- Zero divided by anything is zero. -/
theorem div_zero_left (y : Float64) :
    Float64.div { mant := 0, exp := 0 } y = { mant := 0, exp := 0 } := by
  unfold Float64.div
  split_ifs
  · simp [Float64.round]
  · simp [Float64.round]

/-- Zero times `100.0` is zero. -/
theorem mul_hundred_zero :
    Float64.mul { mant := 0, exp := 0 } Float64.hundred = { mant := 0, exp := 0 } := by
  decide

/-- A positive number divided by itself is `1.0`. -/
theorem round_self (n : Int) (hn : 0 < n) :
    Float64.round n n.natAbs = { mant := 2 ^ 52, exp := -52 } := by
  have hne : ¬ (n = 0) := by omega
  have ha : 0 < n.natAbs := Int.natAbs_pos.mpr hne
  have hexp : Float64.exponentOf n.natAbs n.natAbs = -52 := by
    unfold Float64.exponentOf
    rw [floorLog2_self]
    decide
  have hsig : Float64.significandOf n.natAbs n.natAbs (-52) = 2 ^ 52 := by
    unfold Float64.significandOf
    rw [if_neg (by decide)]
    have h52 : (-(-52 : Int)).toNat = 52 := by decide
    rw [h52]
    unfold roundHalfEven
    rw [Nat.mul_mod_right, Nat.mul_div_cancel_left _ ha]
    simp [ha]
  unfold Float64.round
  rw [if_neg hne, hexp, hsig, Int.sign_eq_one_of_pos hn]
  rfl

/-- `1.0 * 100.0` is `100.0`. -/
theorem mul_hundred_one :
    (Float64.mul { mant := 2 ^ 52, exp := -52 } Float64.hundred).toRat = 100 := by
  have h : Float64.mul { mant := 2 ^ 52, exp := -52 } Float64.hundred =
      { mant := 7036874417766400, exp := -46 } := by decide
  rw [h]
  norm_num [Float64.toRat]

/-- The quotient of the `float64` of two integers `0 <= f <= t`, `t > 0`, is a
non-negative `float64` with a non-positive exponent, at most 1. -/
theorem div_ofInt_bound (f t : Nat) (ht : 0 < t) (hft : f ≤ t) :
    0 ≤ (Float64.div (Float64.ofInt (f : Int)) (Float64.ofInt (t : Int))).mant ∧
    (Float64.div (Float64.ofInt (f : Int)) (Float64.ofInt (t : Int))).exp ≤ 0 ∧
    (Float64.div (Float64.ofInt (f : Int)) (Float64.ofInt (t : Int))).mant ≤
      ((1 * 2 ^ (-(Float64.div (Float64.ofInt (f : Int))
        (Float64.ofInt (t : Int))).exp).toNat : Nat) : Int) := by
  by_cases hf : f = 0
  · subst hf
    rw [Nat.cast_zero, ofInt_zero, div_zero_left]
    simp
  · have hfpos : 0 < f := Nat.pos_of_ne_zero hf
    obtain ⟨xe, xm, xlo, xhi⟩ := ofInt_pos f hfpos
    obtain ⟨ye, ym, ylo, yhi⟩ := ofInt_pos t ht
    have hlg := bitLog2_mono f t hfpos hft
    have hysign : (Float64.ofInt (t : Int)).mant.sign = 1 :=
      Int.sign_eq_one_of_pos (by omega)
    have hyabs : ((Float64.ofInt (t : Int)).mant.natAbs : Int) = (Float64.ofInt (t : Int)).mant :=
      Int.natAbs_of_nonneg (by omega)
    have hdpos : 0 < (Float64.ofInt (t : Int)).mant.natAbs := by omega
    unfold Float64.div
    by_cases hb : (Float64.ofInt (t : Int)).exp ≤ (Float64.ofInt (f : Int)).exp
    · rw [if_pos hb]
      have heq : bitLog2 f = bitLog2 t := by omega
      have h0 : ((Float64.ofInt (f : Int)).exp - (Float64.ofInt (t : Int)).exp).toNat = 0 := by
        omega
      rw [h0, hysign]
      apply round_bound _ _ 1 _ hdpos _ (by decide)
      · simp only [one_mul, pow_zero, mul_one]
        omega
      · simp only [one_mul, pow_zero, mul_one, Nat.cast_one]
        rw [hyabs, xm, ym, heq]
        exact_mod_cast significandOf_mono f t 1 _ hft
    · rw [if_neg hb, hysign]
      have hj : 1 ≤ ((Float64.ofInt (t : Int)).exp - (Float64.ofInt (f : Int)).exp).toNat := by
        omega
      have h2 : 2 ≤ 2 ^ ((Float64.ofInt (t : Int)).exp - (Float64.ofInt (f : Int)).exp).toNat :=
        calc 2 = 2 ^ 1 := rfl
          _ ≤ _ := Nat.pow_le_pow_right (by decide) hj
      apply round_bound _ _ 1 _ (by positivity) _ (by decide)
      · simp only [one_mul]
        omega
      · simp only [one_mul, Nat.cast_one, Nat.cast_mul, Nat.cast_pow, Nat.cast_ofNat]
        rw [hyabs]
        have h3 : (2 : Int) ≤ 2 ^ ((Float64.ofInt (t : Int)).exp -
            (Float64.ofInt (f : Int)).exp).toNat := by exact_mod_cast h2
        calc (Float64.ofInt (f : Int)).mant ≤ 2 ^ 53 := xhi
          _ = 2 ^ 52 * 2 := by norm_num
          _ ≤ (Float64.ofInt (t : Int)).mant * 2 := by omega
          _ ≤ (Float64.ofInt (t : Int)).mant * 2 ^ ((Float64.ofInt (t : Int)).exp -
                (Float64.ofInt (f : Int)).exp).toNat :=
              Int.mul_le_mul_of_nonneg_left h3 (by omega)

/-- A `float64` between 0 and 1 times `100.0` is between 0 and 100. -/
theorem mul_hundred_bound (z : Float64) (h0 : 0 ≤ z.mant) (he : z.exp ≤ 0)
    (hm : z.mant ≤ ((1 * 2 ^ (-z.exp).toNat : Nat) : Int)) :
    0 ≤ (Float64.mul z Float64.hundred).toRat ∧
    (Float64.mul z Float64.hundred).toRat ≤ 100 := by
  have key : 0 ≤ (Float64.mul z Float64.hundred).mant ∧
      (Float64.mul z Float64.hundred).exp ≤ 0 ∧
      (Float64.mul z Float64.hundred).mant ≤
        ((100 * 2 ^ (-(Float64.mul z Float64.hundred).exp).toNat : Nat) : Int) := by
    unfold Float64.mul Float64.hundred
    simp only [add_zero]
    by_cases hb : 0 ≤ z.exp
    · rw [if_pos hb]
      have hz : z.exp = 0 := by omega
      rw [hz] at hm
      simp only [neg_zero, Int.toNat_zero, pow_zero, Nat.mul_one, Nat.cast_one] at hm
      rw [hz]
      apply round_bound _ 1 100 _ (by decide) _ (by decide)
      · simp only [Int.toNat_zero, pow_zero, mul_one]
        omega
      · simp only [Int.toNat_zero, pow_zero, mul_one, Nat.cast_ofNat, Nat.cast_one]
        omega
    · rw [if_neg hb]
      apply round_bound _ _ 100 _ (by positivity) _ (by decide)
      · omega
      · have hm' : z.mant ≤ (2 : Int) ^ (-z.exp).toNat := by
          simpa using hm
        simp only [Nat.cast_ofNat, Nat.cast_pow]
        have := Int.mul_le_mul_of_nonneg_right hm' (by decide : (0 : Int) ≤ 100)
        rw [Int.mul_comm ((2 : Int) ^ (-z.exp).toNat) 100] at this
        exact this
  have h := toRat_bounds _ 100 key.1 key.2.1 key.2.2
  exact ⟨h.1, by simpa using h.2⟩

/-- The percentage `float64(f) / float64(t) * 100.0` of integers `0 <= f <= t`,
`t > 0`, is between 0 and 100. -/
theorem float64_percentage_range (f t : Int) (hf : 0 ≤ f) (hft : f ≤ t) (ht : 0 < t) :
    0 ≤ (Float64.mul (Float64.div (Float64.ofInt f) (Float64.ofInt t))
        Float64.hundred).toRat ∧
    (Float64.mul (Float64.div (Float64.ofInt f) (Float64.ofInt t))
        Float64.hundred).toRat ≤ 100 := by
  obtain ⟨a, rfl⟩ : ∃ a : Nat, f = (a : Int) := ⟨f.toNat, by omega⟩
  obtain ⟨b, rfl⟩ : ∃ b : Nat, t = (b : Int) := ⟨t.toNat, by omega⟩
  obtain ⟨h1, h2, h3⟩ := div_ofInt_bound a b (by omega) (by omega)
  exact mul_hundred_bound _ h1 h2 h3

/-- The percentage of `t` out of `t` is exactly 100. -/
theorem float64_percentage_all (t : Int) (ht : 0 < t) :
    (Float64.mul (Float64.div (Float64.ofInt t) (Float64.ofInt t))
        Float64.hundred).toRat = 100 := by
  obtain ⟨b, rfl⟩ : ∃ b : Nat, t = (b : Int) := ⟨t.toNat, by omega⟩
  obtain ⟨_, _, ylo, _⟩ := ofInt_pos b (by omega)
  have hpos : 0 < (Float64.ofInt (b : Int)).mant := by omega
  have hdiv : Float64.div (Float64.ofInt (b : Int)) (Float64.ofInt (b : Int)) =
      { mant := 2 ^ 52, exp := -52 } := by
    unfold Float64.div
    rw [if_pos (le_refl _), Int.sign_eq_one_of_pos hpos]
    simp only [sub_self, Int.toNat_zero, pow_zero, mul_one, one_mul]
    exact round_self _ hpos
  rw [hdiv]
  exact mul_hundred_one

/-- The percentage of 0 out of anything is exactly 0. -/
theorem float64_percentage_none (t : Int) :
    (Float64.mul (Float64.div (Float64.ofInt 0) (Float64.ofInt t))
        Float64.hundred).toRat = 0 := by
  rw [ofInt_zero, div_zero_left, mul_hundred_zero]
  simp [Float64.toRat]

/-- On a Closed breaker `Call` runs the operation and touches nothing else. -/
theorem call_closed_eq {σ : Type} (b : Breaker) (fn : σ → Option GoError × σ) (w : σ)
    (now : Nat) (receiverReady : Bool) (hclosed : b.state = CloseState) :
    (b.Call fn w now receiverReady).err = (fn w).1 ∧
    (b.Call fn w now receiverReady).world = (fn w).2 ∧
    (b.Call fn w now receiverReady).breaker = b ∧
    (b.Call fn w now receiverReady).spawned =
      some (if (fn w).1 = none then Spawned.success else Spawned.fail) := by
  have hne : ¬ b.state = OpenState := by rw [hclosed]; decide
  unfold Breaker.Call
  simp only [hne, if_false]
  cases h : (fn w).1 <;> simp

/-- C1. On a breaker whose state is Closed, `Call` runs the operation once from
the world it was given (the world afterwards is the one the operation returned)
and returns exactly what the operation returned, error or nil, whatever the
counter and the options hold; no policy evaluation runs and the breaker is left
as it was. -/
theorem call_closed_returns_fn_result {σ : Type} (b : Breaker)
    (fn : σ → Option GoError × σ) (w : σ) (now : Nat) (receiverReady : Bool)
    (hclosed : b.state = CloseState) :
    (b.Call fn w now receiverReady).err = (fn w).1 ∧
    (b.Call fn w now receiverReady).world = (fn w).2 ∧
    (b.Call fn w now receiverReady).breaker = b ∧
    (b.Call fn w now receiverReady).spawned =
      some (if (fn w).1 = none then Spawned.success else Spawned.fail) := by
  have hne : ¬ b.state = OpenState := by
    rw [hclosed]
    exact closeState_ne_openState
  unfold Breaker.Call
  rw [if_neg hne]
  cases h : (fn w).1 with
  | none => simp only [h, if_true]; exact ⟨trivial, trivial, trivial, trivial⟩
  | some e =>
    have hs : ¬ (some e = (none : Option GoError)) := by simp
    simp only [h, if_neg hs]
    exact ⟨trivial, trivial, trivial, trivial⟩

/-- Witness of C1: the closed test breaker with `returnAnError`, called once. -/
theorem call_closed_returns_fn_result_witness :
    (closedBreaker.Call returnAnError 0 5 false).err = some (GoError.other 0) ∧
    (closedBreaker.Call returnAnError 0 5 false).world = 1 :=
  ⟨(call_closed_returns_fn_result closedBreaker returnAnError 0 5 false rfl).1,
   (call_closed_returns_fn_result closedBreaker returnAnError 0 5 false rfl).2.1⟩

/-- C2 as stated fails: on a Closed breaker an operation that itself returns
`ErrBreakerOpen` is invoked, and `Call` returns `ErrBreakerOpen`. -/
theorem call_breaker_open_iff_counterexample :
    (closedBreaker.Call returnBreakerOpen 0 5 false).err = some GoError.ErrBreakerOpen ∧
    (closedBreaker.Call returnBreakerOpen 0 5 false).world = 1 ∧
    ¬ (closedBreaker.state = OpenState ∧
        (closedBreaker.update 5 false).ret = OpenState) := by
  refine ⟨rfl, rfl, ?_⟩
  intro h
  exact absurd h.1 (by decide)

/-- C2, amended. `Call` rejects the call (no goroutine is started, the world is
untouched, `ErrBreakerOpen` is returned) if and only if the state loaded at
entry is Open and `update` still yields Open; otherwise the operation is run
once and its result returned.  Hence `Call` returns `ErrBreakerOpen` exactly
when it rejects the call or the operation it ran returned `ErrBreakerOpen`. -/
theorem call_rejects_iff_open {σ : Type} (b : Breaker)
    (fn : σ → Option GoError × σ) (w : σ) (now : Nat) (receiverReady : Bool) :
    ((b.Call fn w now receiverReady).spawned = none ↔
      (b.state = OpenState ∧ (b.update now receiverReady).ret = OpenState)) ∧
    ((b.Call fn w now receiverReady).spawned = none →
      (b.Call fn w now receiverReady).err = some GoError.ErrBreakerOpen ∧
      (b.Call fn w now receiverReady).world = w) ∧
    ((b.Call fn w now receiverReady).spawned ≠ none →
      (b.Call fn w now receiverReady).err = (fn w).1 ∧
      (b.Call fn w now receiverReady).world = (fn w).2) ∧
    ((b.Call fn w now receiverReady).err = some GoError.ErrBreakerOpen ↔
      ((b.state = OpenState ∧ (b.update now receiverReady).ret = OpenState) ∨
        (fn w).1 = some GoError.ErrBreakerOpen)) := by
  unfold Breaker.Call
  by_cases hs : b.state = OpenState
  · by_cases hu : (b.update now receiverReady).ret = OpenState
    · simp [hs, hu]
    · cases h : (fn w).1 <;> simp [hs, hu, h]
  · cases h : (fn w).1 <;> simp [hs, h]

/-- C3. The policy yields Open exactly when `Total >= MinimumNumberOfRequest` and
`ErrorPercentage >= ErrorsPercentage`; in every other case, in particular when
`Total < MinimumNumberOfRequest`, it yields Closed; `checkState` applies this
policy to the summary of the breaker's counter. -/
theorem checkState_open_iff (options : Options) (counts : HealthSummary) :
    (checkStateOf options counts = OpenState ↔
      (counts.Total ≥ options.MinimumNumberOfRequest ∧
        counts.ErrorPercentage ≥ options.ErrorsPercentage)) ∧
    (¬ (counts.Total ≥ options.MinimumNumberOfRequest ∧
        counts.ErrorPercentage ≥ options.ErrorsPercentage) →
      checkStateOf options counts = CloseState) ∧
    (counts.Total < options.MinimumNumberOfRequest →
      checkStateOf options counts = CloseState) ∧
    (∀ (b : Breaker) (now : Nat),
      b.checkState now = checkStateOf b.options (b.healthCounts.Summary now)) := by
  rcases checkStateOf_cases options counts with ⟨h, hc⟩ | ⟨h, hc⟩
  · refine ⟨?_, ?_, ?_, fun _ _ => rfl⟩
    · exact ⟨fun _ => hc, fun _ => h⟩
    · exact fun hn => absurd hc hn
    · exact fun hlt => absurd hlt (not_lt.mpr hc.1)
  · refine ⟨?_, ?_, ?_, fun _ _ => rfl⟩
    · constructor
      · intro ho
        rw [h] at ho
        exact absurd ho closeState_ne_openState
      · exact fun hn => absurd hn hc
    · exact fun _ => h
    · exact fun _ => h

/-- C5 as stated fails: with no receiver ready on `changes`, the recovering
`Call` closes the breaker and publishes nothing. -/
theorem call_recovers_counterexample :
    openBreaker.state = OpenState ∧
    (openBreaker.healthCounts.Summary 5).Total < openBreaker.options.MinimumNumberOfRequest ∧
    (openBreaker.Call returnNilError 0 5 false).err = none ∧
    (openBreaker.Call returnNilError 0 5 false).breaker.state = CloseState ∧
    (openBreaker.Call returnNilError 0 5 false).delivered = [] := by
  refine ⟨rfl, by decide, rfl, rfl, rfl⟩

/-- C5, amended. On an Open breaker whose windowed statistics are under
threshold at the moment of the `Call`, the `Call` runs the operation and returns
its result, the state becomes Closed, and exactly one non-blocking send of
Closed is attempted; it is delivered when a receiver is ready and dropped
otherwise. -/
theorem call_recovers_when_under_threshold {σ : Type} (b : Breaker)
    (fn : σ → Option GoError × σ) (w : σ) (now : Nat) (receiverReady : Bool)
    (hopen : b.state = OpenState)
    (hunder : (b.healthCounts.Summary now).Total < b.options.MinimumNumberOfRequest ∨
      (b.healthCounts.Summary now).ErrorPercentage < b.options.ErrorsPercentage) :
    (b.Call fn w now receiverReady).err = (fn w).1 ∧
    (b.Call fn w now receiverReady).world = (fn w).2 ∧
    (b.Call fn w now receiverReady).breaker.state = CloseState ∧
    (b.Call fn w now receiverReady).breaker.healthCounts = b.healthCounts ∧
    (b.Call fn w now receiverReady).attempted = [CloseState] ∧
    (b.Call fn w now receiverReady).delivered =
      (if receiverReady then [CloseState] else []) := by
  have hcs : b.checkState now = CloseState := by
    unfold Breaker.checkState
    rcases checkStateOf_cases b.options (b.healthCounts.Summary now) with ⟨_, h1, h2⟩ | ⟨h, _⟩
    · rcases hunder with h | h
      · exact absurd h (not_lt.mpr h1)
      · exact absurd h (not_lt.mpr h2)
    · exact h
  have hne : ¬ (OpenState = CloseState) := by decide
  have hne2 : ¬ (CloseState = OpenState) := by decide
  have hu : b.update now receiverReady =
      { ret := CloseState, breaker := { b with state := CloseState },
        attempted := [CloseState],
        delivered := if receiverReady then [CloseState] else [] } := by
    unfold Breaker.update Breaker.compareAndSwap
    simp [hcs, hopen, hne]
  unfold Breaker.Call
  simp only [hopen, if_true, hu, hne2, if_false]
  cases h : (fn w).1 <;> simp

/-- Witness of C5: the open test breaker with an empty counter and a ready receiver. -/
theorem call_recovers_when_under_threshold_witness :
    (openBreaker.Call returnNilError 0 5 true).breaker.state = CloseState ∧
    (openBreaker.Call returnNilError 0 5 true).delivered = [CloseState] :=
  ⟨(call_recovers_when_under_threshold openBreaker returnNilError 0 5 true rfl
      (Or.inl (by decide))).2.2.1,
   (call_recovers_when_under_threshold openBreaker returnNilError 0 5 true rfl
      (Or.inl (by decide))).2.2.2.2.2⟩

/-- C8. For every counter (its window inside the `int64` range and below its
maximum) and every instant, `Summary` returns as Success and Failures the sums
of the counts over exactly the buckets whose lastWrite is set and satisfies
`now - lastWrite <= window`, and Total is their sum: a bucket with
`now - lastWrite > window` adds nothing, whatever counts it stores. -/
theorem summary_sums_live_buckets (hc : HealthCounts) (now : Nat)
    (hlo : minDuration ≤ hc.window) (hhi : hc.window < maxDuration) :
    (hc.Summary now).Success =
      ((hc.values.filter (fun v =>
          decide (v.lastWrite ≠ 0 ∧ (now : Int) - (v.lastWrite : Int) ≤ hc.window))).map
        (·.success)).sum ∧
    (hc.Summary now).Failures =
      ((hc.values.filter (fun v =>
          decide (v.lastWrite ≠ 0 ∧ (now : Int) - (v.lastWrite : Int) ≤ hc.window))).map
        (·.failures)).sum ∧
    (hc.Summary now).Total = (hc.Summary now).Success + (hc.Summary now).Failures := by
  have hf : (fun v : HealthCountsBucket =>
      decide (v.lastWrite ≠ 0 ∧ (now : Int) - (v.lastWrite : Int) ≤ hc.window)) =
      hc.included now := by
    funext v
    by_cases h : hc.included now v = true
    · rw [h]
      exact decide_eq_true ((included_iff hc now v hlo hhi).mp h)
    · have hn : ¬ (v.lastWrite ≠ 0 ∧ (now : Int) - (v.lastWrite : Int) ≤ hc.window) :=
        fun hh => h ((included_iff hc now v hlo hhi).mpr hh)
      rw [Bool.not_eq_true] at h
      rw [h]
      exact decide_eq_false hn
  rw [hf]
  unfold HealthCounts.Summary
  exact ⟨(doSummary_counts hc now).1, (doSummary_counts hc now).2.1,
    (doSummary_counts hc now).2.2.1⟩

/-- Witness of C8: the stale bucket adds nothing. -/
theorem summary_sums_live_buckets_witness :
    (countsLiveAndStale.Summary 15000000000).Success = 2 ∧
    (countsLiveAndStale.Summary 15000000000).Failures = 1 ∧
    (countsLiveAndStale.Summary 15000000000).Total = 3 := by
  have h := summary_sums_live_buckets countsLiveAndStale 15000000000
    (by decide) (by decide)
  refine ⟨h.1.trans (by decide), h.2.1.trans (by decide), ?_⟩
  rw [h.2.2, h.1, h.2.1]
  decide

/-- The strict comparison of `bucket`, with the exact difference. -/
theorem sub_gt_window_iff (t u : Nat) (w : Int)
    (h1 : minDuration ≤ w) (h2 : w < maxDuration) :
    Time.Sub t u > w ↔ (t : Int) - (u : Int) > w := by
  have h := sub_le_window_iff t u w h1 h2
  constructor
  · intro hgt
    by_contra hn
    exact absurd (h.mpr (not_lt.mp hn)) (not_le.mpr hgt)
  · intro hgt
    by_contra hn
    exact absurd (h.mp (not_lt.mp hn)) (not_le.mpr hgt)

/-- What `bucket` returns when the selected bucket exists. -/
theorem bucket_eq (hc : HealthCounts) (now : Nat) (i : Nat) (v : HealthCountsBucket)
    (hi : hc.index now = some i) (hv : hc.values[i]? = some v) :
    hc.bucket now = some
      ({ hc with
          values := hc.values.set i
            { failures := (if !Time.IsZero v.lastWrite then
                (if Time.Sub now v.lastWrite > hc.window then v.reset else v) else v).failures
              success := (if !Time.IsZero v.lastWrite then
                (if Time.Sub now v.lastWrite > hc.window then v.reset else v) else v).success
              lastWrite := now } }, i) := by
  unfold HealthCounts.bucket
  simp only [hi, hv]

/-- Reading back the element just written. -/
theorem getElem?_set_self_of_some {α : Type} (l : List α) (i : Nat) (v a : α)
    (hv : l[i]? = some v) : (l.set i a)[i]? = some a := by
  have hlt : i < l.length := by
    by_contra hn
    rw [List.getElem?_eq_none (not_lt.mp hn)] at hv
    exact absurd hv (by simp)
  simp [List.getElem?_set, hlt]

/-- What `doSuccess` returns when the selected bucket exists. -/
theorem doSuccess_eq (hc : HealthCounts) (now now2 : Nat) (i : Nat) (v : HealthCountsBucket)
    (hi : hc.index now = some i) (hv : hc.values[i]? = some v) :
    hc.doSuccess now now2 = some
      { hc with
        values := hc.values.set i
          { failures := (if !Time.IsZero v.lastWrite then
              (if Time.Sub now v.lastWrite > hc.window then v.reset else v) else v).failures
            success := (if !Time.IsZero v.lastWrite then
              (if Time.Sub now v.lastWrite > hc.window then v.reset else v) else v).success + 1
            lastWrite := now }
        lastSuccess := now2 } := by
  unfold HealthCounts.doSuccess
  rw [bucket_eq hc now i v hi hv]
  simp only [getElem?_set_self_of_some hc.values i v _ hv, List.set_set]

/-- What `doFail` returns when the selected bucket exists. -/
theorem doFail_eq (hc : HealthCounts) (now now2 : Nat) (i : Nat) (v : HealthCountsBucket)
    (hi : hc.index now = some i) (hv : hc.values[i]? = some v) :
    hc.doFail now now2 = some
      { hc with
        values := hc.values.set i
          { failures := (if !Time.IsZero v.lastWrite then
              (if Time.Sub now v.lastWrite > hc.window then v.reset else v) else v).failures + 1
            success := (if !Time.IsZero v.lastWrite then
              (if Time.Sub now v.lastWrite > hc.window then v.reset else v) else v).success
            lastWrite := now }
        lastFailure := now2 } := by
  unfold HealthCounts.doFail
  rw [bucket_eq hc now i v hi hv]
  simp only [getElem?_set_self_of_some hc.values i v _ hv, List.set_set]

/-- A record that selects a bucket which is not stale adds one to the count of
its kind, keeps the other count and stamps lastWrite. -/
theorem record_fresh (hc : HealthCounts) (now now2 : Nat) (i : Nat)
    (v : HealthCountsBucket)
    (hlo : minDuration ≤ hc.window) (hhi : hc.window < maxDuration)
    (hi : hc.index now = some i) (hv : hc.values[i]? = some v)
    (hn : ¬ (v.lastWrite ≠ 0 ∧ (now : Int) - (v.lastWrite : Int) > hc.window)) :
    hc.doSuccess now now2 = some
      { hc with
        values := hc.values.set i
          { failures := v.failures, success := v.success + 1, lastWrite := now }
        lastSuccess := now2 } ∧
    hc.doFail now now2 = some
      { hc with
        values := hc.values.set i
          { failures := v.failures + 1, success := v.success, lastWrite := now }
        lastFailure := now2 } := by
  rw [doSuccess_eq hc now now2 i v hi hv, doFail_eq hc now now2 i v hi hv]
  by_cases hz : v.lastWrite = 0
  · have hz' : (!Time.IsZero v.lastWrite) = false := by simp [Time.IsZero, hz]
    simp [hz']
  · have hle : ¬ Time.Sub now v.lastWrite > hc.window := fun hgt =>
      hn ⟨hz, (sub_gt_window_iff now v.lastWrite hc.window hlo hhi).mp hgt⟩
    have hz' : (!Time.IsZero v.lastWrite) = true := by simp [Time.IsZero, hz]
    simp [hz', hle]

/-- C9. A record made at `now` that selects bucket `i` (holding `v`) of a counter
whose window is inside the `int64` range and below its maximum: when the bucket
is stale (lastWrite set and `now - lastWrite > window`) the bucket afterwards
holds exactly the new event (1 for the recorded kind, 0 for the other) with
lastWrite `now`; when it is not stale the recorded kind grows by exactly 1, the
other count is kept and lastWrite is `now`.  In both cases every other bucket is
unchanged (the bucket list is the old one with position `i` replaced). -/
theorem record_resets_stale_bucket (hc : HealthCounts) (now now2 : Nat) (i : Nat)
    (v : HealthCountsBucket)
    (hlo : minDuration ≤ hc.window) (hhi : hc.window < maxDuration)
    (hi : hc.index now = some i) (hv : hc.values[i]? = some v) :
    ((v.lastWrite ≠ 0 ∧ (now : Int) - (v.lastWrite : Int) > hc.window) →
      hc.doSuccess now now2 = some
        { hc with
          values := hc.values.set i { failures := 0, success := 1, lastWrite := now }
          lastSuccess := now2 } ∧
      hc.doFail now now2 = some
        { hc with
          values := hc.values.set i { failures := 1, success := 0, lastWrite := now }
          lastFailure := now2 }) ∧
    (¬ (v.lastWrite ≠ 0 ∧ (now : Int) - (v.lastWrite : Int) > hc.window) →
      hc.doSuccess now now2 = some
        { hc with
          values := hc.values.set i
            { failures := v.failures, success := v.success + 1, lastWrite := now }
          lastSuccess := now2 } ∧
      hc.doFail now now2 = some
        { hc with
          values := hc.values.set i
            { failures := v.failures + 1, success := v.success, lastWrite := now }
          lastFailure := now2 }) := by
  rw [doSuccess_eq hc now now2 i v hi hv, doFail_eq hc now now2 i v hi hv]
  constructor
  · rintro ⟨hz, hgt⟩
    have hgt' := (sub_gt_window_iff now v.lastWrite hc.window hlo hhi).mpr hgt
    have hz' : (!Time.IsZero v.lastWrite) = true := by simp [Time.IsZero, hz]
    simp [hz', hgt', HealthCountsBucket.reset]
  · intro hn
    by_cases hz : v.lastWrite = 0
    · have hz' : (!Time.IsZero v.lastWrite) = false := by simp [Time.IsZero, hz]
      simp [hz']
    · have hle : ¬ Time.Sub now v.lastWrite > hc.window := fun hgt =>
        hn ⟨hz, (sub_gt_window_iff now v.lastWrite hc.window hlo hhi).mp hgt⟩
      have hz' : (!Time.IsZero v.lastWrite) = true := by simp [Time.IsZero, hz]
      simp [hz', hle]

/-- Witness of C9: a Success at second 16 selects the stale bucket 0. -/
theorem record_resets_stale_bucket_witness :
    countsLiveAndStale.doSuccess 16000000000 16000000001 = some
      { values := [{ failures := 0, success := 1, lastWrite := 16000000000 },
                   { failures := 1, success := 2, lastWrite := 15000000000 }],
        buckets := 2, window := 2000000000, lastFailure := 0,
        lastSuccess := 16000000001 } :=
  ((record_resets_stale_bucket countsLiveAndStale 16000000000 16000000001 0
      { failures := 4, success := 4, lastWrite := 12000000000 }
      (by decide) (by decide) (by decide) rfl).1 ⟨by decide, by decide⟩).1

/-- C10. `NewHealthCounts n` fails, returning no counter, if and only if
`n <= 0` or `n > 60`, and then the error is
`ErrNumberOfSecondsToStoreOutOfBounds`; for `n` in `1..60` it returns the counter
with exactly `n` zero buckets (zero counts, unset lastWrite), a window of `n`
seconds and unset last-event markers. -/
theorem newHealthCounts_bounds (n : Int) :
    (NewHealthCounts n = .error GoError.ErrNumberOfSecondsToStoreOutOfBounds ↔
      (n ≤ 0 ∨ n > 60)) ∧
    ((∃ e, NewHealthCounts n = .error e) ↔ (n ≤ 0 ∨ n > 60)) ∧
    ((1 ≤ n ∧ n ≤ 60) →
      ∃ hc, NewHealthCounts n = .ok hc ∧
        (hc.values.length : Int) = n ∧
        (∀ v ∈ hc.values, v.failures = 0 ∧ v.success = 0 ∧ v.lastWrite = 0) ∧
        hc.buckets = n ∧
        hc.window = n * Second ∧
        hc.lastFailure = 0 ∧ hc.lastSuccess = 0) := by
  unfold NewHealthCounts
  by_cases h : n ≤ 0 ∨ n > 60
  · rw [if_pos h]
    refine ⟨⟨fun _ => h, fun _ => rfl⟩, ⟨fun _ => h, fun _ => ⟨_, rfl⟩⟩, ?_⟩
    intro hn
    exfalso
    omega
  · rw [if_neg h]
    refine ⟨⟨fun he => ?_, fun hn => absurd hn h⟩,
      ⟨fun he => ?_, fun hn => absurd hn h⟩, ?_⟩
    · cases he
    · obtain ⟨e, he⟩ := he
      cases he
    · intro hn
      refine ⟨_, rfl, ?_, ?_, rfl, rfl, rfl, rfl⟩
      · simp only [List.length_replicate]
        omega
      · intro v hv
        rw [List.eq_of_mem_replicate hv]
        exact ⟨rfl, rfl, rfl⟩

/-- Replacing an element changes the sum of a projection by the difference. -/
theorem sum_map_set {α : Type} (f : α → Int) (l : List α) (i : Nat) (v a : α)
    (hv : l[i]? = some v) :
    ((l.set i a).map f).sum = (l.map f).sum - f v + f a := by
  induction l generalizing i with
  | nil => simp at hv
  | cons x l ih =>
    cases i with
    | zero =>
      simp only [List.getElem?_cons_zero, Option.some.injEq] at hv
      subst hv
      simp only [List.set_cons_zero, List.map_cons, List.sum_cons]
      omega
    | succ j =>
      simp only [List.getElem?_cons_succ] at hv
      simp only [List.set_cons_succ, List.map_cons, List.sum_cons, ih j hv]
      omega

/-- Dropping buckets whose counts are zero does not change the sums. -/
theorem sum_filter_eq_sum (p : HealthCountsBucket → Bool) (f : HealthCountsBucket → Int)
    (l : List HealthCountsBucket) (h : ∀ v ∈ l, p v = true ∨ f v = 0) :
    ((l.filter p).map f).sum = (l.map f).sum := by
  induction l with
  | nil => rfl
  | cons x l ih =>
    have ih' := ih (fun v hv => h v (List.mem_cons_of_mem x hv))
    by_cases hp : p x = true
    · simp only [List.filter_cons, hp, if_true, List.map_cons, List.sum_cons, ih']
    · have hx : f x = 0 := by
        rcases h x (List.mem_cons_self x l) with h1 | h1
        · exact absurd h1 hp
        · exact h1
      rw [List.filter_cons_of_neg hp, List.map_cons, List.sum_cons, hx, zero_add]
      exact ih'

/-- The index `bucket` computes is inside the bucket array of a well-formed counter. -/
theorem index_lt_length (hc : HealthCounts) (now : Nat) (hwf : hc.WellFormed) :
    ∃ i, hc.index now = some i ∧ i < hc.values.length := by
  obtain ⟨hpos, hlen, _, _⟩ := hwf
  unfold HealthCounts.index
  have hne : ¬ hc.buckets = 0 := by omega
  rw [if_neg hne]
  refine ⟨_, rfl, ?_⟩
  have hsec : (0 : Int) ≤ Time.Second now := by
    unfold Time.Second
    exact Int.ofNat_nonneg _
  have h1 := Int.tmod_lt_of_pos (Time.Second now) hpos
  have h2 := Int.tmod_nonneg hc.buckets hsec
  omega

/-- A record inside the live window keeps the counter well formed and live and
adds one to the stored sum of its kind. -/
theorem record_live (hc : HealthCounts) (now now2 hi : Nat)
    (hwf : hc.WellFormed) (hlive : hc.Live hi) (hpos : 0 < now) (hle : now ≤ hi)
    (hwin : (hi : Int) - (now : Int) ≤ hc.window) :
    (∃ h1, hc.doSuccess now now2 = some h1 ∧ h1.WellFormed ∧ h1.Live hi ∧
      h1.window = hc.window ∧ h1.sumSuccess = hc.sumSuccess + 1 ∧
      h1.sumFailures = hc.sumFailures) ∧
    (∃ h1, hc.doFail now now2 = some h1 ∧ h1.WellFormed ∧ h1.Live hi ∧
      h1.window = hc.window ∧ h1.sumSuccess = hc.sumSuccess ∧
      h1.sumFailures = hc.sumFailures + 1) := by
  obtain ⟨i, hidx, hlt⟩ := index_lt_length hc now hwf
  obtain ⟨hb, hlen, hlo, hhi⟩ := hwf
  have hv : hc.values[i]? = some hc.values[i] := List.getElem?_eq_getElem hlt
  have hmem : hc.values[i] ∈ hc.values := List.getElem?_mem hv
  have hfresh : ¬ ((hc.values[i]).lastWrite ≠ 0 ∧
      (now : Int) - ((hc.values[i]).lastWrite : Int) > hc.window) := by
    rintro ⟨hz, hgt⟩
    rcases hlive _ hmem with ⟨h0, _, _⟩ | ⟨_, hw⟩
    · exact hz h0
    · omega
  obtain ⟨hS, hF⟩ := record_fresh hc now now2 i _ hlo hhi hidx hv hfresh
  have hnew : ∀ (a : HealthCountsBucket), a.lastWrite = now →
      ∀ v ∈ hc.values.set i a,
        (v.lastWrite = 0 ∧ v.success = 0 ∧ v.failures = 0) ∨
        (0 < v.lastWrite ∧ (hi : Int) - (v.lastWrite : Int) ≤ hc.window) := by
    intro a ha v hvm
    rcases List.mem_or_eq_of_mem_set hvm with h | h
    · exact hlive v h
    · right
      rw [h, ha]
      exact ⟨hpos, hwin⟩
  constructor
  · refine ⟨_, hS, ⟨hb, ?_, hlo, hhi⟩, hnew _ rfl, rfl, ?_, ?_⟩
    · simpa using hlen
    · show ((hc.values.set i _).map (·.success)).sum = (hc.values.map (·.success)).sum + 1
      rw [sum_map_set (·.success) hc.values i _ _ hv]
      simp only
      omega
    · show ((hc.values.set i _).map (·.failures)).sum = (hc.values.map (·.failures)).sum
      rw [sum_map_set (·.failures) hc.values i _ _ hv]
      simp only
      omega
  · refine ⟨_, hF, ⟨hb, ?_, hlo, hhi⟩, hnew _ rfl, rfl, ?_, ?_⟩
    · simpa using hlen
    · show ((hc.values.set i _).map (·.success)).sum = (hc.values.map (·.success)).sum
      rw [sum_map_set (·.success) hc.values i _ _ hv]
      simp only
      omega
    · show ((hc.values.set i _).map (·.failures)).sum = (hc.values.map (·.failures)).sum + 1
      rw [sum_map_set (·.failures) hc.values i _ _ hv]
      simp only
      omega

/-- On a live counter a summary taken no later than the bound reports every
stored count. -/
theorem summary_live (hc : HealthCounts) (now hi : Nat)
    (hwf : hc.WellFormed) (hlive : hc.Live hi) (hle : now ≤ hi) :
    (hc.doSummary now).Success = hc.sumSuccess ∧
    (hc.doSummary now).Failures = hc.sumFailures := by
  obtain ⟨_, _, hlo, hhi⟩ := hwf
  have hinc : ∀ v ∈ hc.values, hc.included now v = true ∨
      (v.success = 0 ∧ v.failures = 0) := by
    intro v hv
    rcases hlive v hv with ⟨_, h1, h2⟩ | ⟨hp, hw⟩
    · exact Or.inr ⟨h1, h2⟩
    · left
      rw [included_iff hc now v hlo hhi]
      constructor
      · omega
      · omega
  obtain ⟨h1, h2, _⟩ := doSummary_counts hc now
  rw [h1, h2]
  constructor
  · exact sum_filter_eq_sum _ (·.success) hc.values
      (fun v hv => (hinc v hv).imp id (fun h => h.1))
  · exact sum_filter_eq_sum _ (·.failures) hc.values
      (fun v hv => (hinc v hv).imp id (fun h => h.2))

/-- Serving requests whose records all fall inside the live window keeps the
counter well formed and live and stores every record. -/
theorem run_live (reqs : List Request) (hc : HealthCounts) (hi : Nat)
    (hwf : hc.WellFormed) (hlive : hc.Live hi)
    (ht : ∀ r ∈ reqs, ∀ t, r.recordTime = some t →
      0 < t ∧ t ≤ hi ∧ (hi : Int) - (t : Int) ≤ hc.window) :
    ∃ h1 outs, hc.run reqs = some (h1, outs) ∧ h1.WellFormed ∧ h1.Live hi ∧
      h1.window = hc.window ∧
      h1.sumSuccess = hc.sumSuccess + (reqs.countP Request.isSuccess : Nat) ∧
      h1.sumFailures = hc.sumFailures + (reqs.countP Request.isFail : Nat) := by
  induction reqs generalizing hc with
  | nil => exact ⟨hc, [], rfl, hwf, hlive, rfl, by simp, by simp⟩
  | cons r rs ih =>
    have htail : ∀ (h1 : HealthCounts), h1.window = hc.window →
        ∀ r ∈ rs, ∀ t, r.recordTime = some t →
          0 < t ∧ t ≤ hi ∧ (hi : Int) - (t : Int) ≤ h1.window := by
      intro h1 hw r hr t hrt
      rw [hw]
      exact ht r (List.mem_cons_of_mem _ hr) t hrt
    cases r with
    | success now now2 =>
      obtain ⟨hp, hle, hwin⟩ := ht (.success now now2) (List.mem_cons_self _ _) now rfl
      obtain ⟨⟨h1, hS, hwf1, hl1, hw1, hs1, hf1⟩, _⟩ :=
        record_live hc now now2 hi hwf hlive hp hle hwin
      obtain ⟨h2, outs, hrun, hwf2, hl2, hw2, hs2, hf2⟩ := ih h1 hwf1 hl1 (htail h1 hw1)
      refine ⟨h2, [] ++ outs, ?_, hwf2, hl2, hw2.trans hw1, ?_, ?_⟩
      · simp only [HealthCounts.run, HealthCounts.step, hS, Option.map_some', hrun]
      · rw [hs2, hs1, List.countP_cons]
        simp only [Request.isSuccess, if_true]
        push_cast
        omega
      · rw [hf2, hf1, List.countP_cons]
        simp [Request.isFail]
    | fail now now2 =>
      obtain ⟨hp, hle, hwin⟩ := ht (.fail now now2) (List.mem_cons_self _ _) now rfl
      obtain ⟨_, ⟨h1, hF, hwf1, hl1, hw1, hs1, hf1⟩⟩ :=
        record_live hc now now2 hi hwf hlive hp hle hwin
      obtain ⟨h2, outs, hrun, hwf2, hl2, hw2, hs2, hf2⟩ := ih h1 hwf1 hl1 (htail h1 hw1)
      refine ⟨h2, [] ++ outs, ?_, hwf2, hl2, hw2.trans hw1, ?_, ?_⟩
      · simp only [HealthCounts.run, HealthCounts.step, hF, Option.map_some', hrun]
      · rw [hs2, hs1, List.countP_cons]
        simp [Request.isSuccess]
      · rw [hf2, hf1, List.countP_cons]
        simp only [Request.isFail, if_true]
        push_cast
        omega
    | summary now =>
      obtain ⟨h2, outs, hrun, hwf2, hl2, hw2, hs2, hf2⟩ := ih hc hwf hlive (htail hc rfl)
      refine ⟨h2, [hc.doSummary now] ++ outs, ?_, hwf2, hl2, hw2, ?_, ?_⟩
      · simp only [HealthCounts.run, HealthCounts.step, hrun]
      · rw [hs2, List.countP_cons]
        simp [Request.isSuccess]
      · rw [hf2, List.countP_cons]
        simp [Request.isFail]

/-- The counter `NewHealthCounts` returns is well formed, live for every bound,
and stores nothing. -/
theorem newHealthCounts_fresh (n : Int) (hn : 1 ≤ n ∧ n ≤ 60) :
    ∃ hc, NewHealthCounts n = .ok hc ∧ hc.WellFormed ∧ (∀ hi, hc.Live hi) ∧
      hc.window = n * Second ∧ hc.buckets = n ∧ hc.sumSuccess = 0 ∧ hc.sumFailures = 0 := by
  have hcond : ¬ (n ≤ 0 ∨ n > 60) := by omega
  unfold NewHealthCounts
  rw [if_neg hcond]
  refine ⟨_, rfl, ⟨?_, ?_, ?_, ?_⟩, ?_, rfl, rfl, ?_, ?_⟩
  · show 0 < n
    omega
  · show ((List.replicate n.toNat HealthCountsBucket.zero).length : Int) = n
    rw [List.length_replicate]
    omega
  · show minDuration ≤ n * Second
    unfold minDuration Second
    omega
  · show n * Second < maxDuration
    unfold maxDuration Second
    omega
  · intro hi v hv
    left
    have hv' : v ∈ List.replicate n.toNat HealthCountsBucket.zero := hv
    rw [List.eq_of_mem_replicate hv']
    exact ⟨rfl, rfl, rfl⟩
  · show ((List.replicate n.toNat HealthCountsBucket.zero).map (·.success)).sum = 0
    simp [HealthCountsBucket.zero]
  · show ((List.replicate n.toNat HealthCountsBucket.zero).map (·.failures)).sum = 0
    simp [HealthCountsBucket.zero]

/-- C6 as stated fails: on a fresh 10-bucket counter that served 71 successes
and 29 failures, all within the window, the counts are reported exactly but the
error percentage is `float64(29) / float64(100) * 100.0`, which is
`8162774324609023 / 2 ^ 48` (28.999999999999996), not the exact `100 * 29 / 100`. -/
theorem summary_percentage_is_rounded_counterexample :
    hundredRequests.countP Request.isSuccess = 71 ∧
    hundredRequests.countP Request.isFail = 29 ∧
    ∃ hc0 hc outs, NewHealthCounts 10 = .ok hc0 ∧
      hc0.run hundredRequests = some (hc, outs) ∧
      (hc.Summary 100000000002).Success = 71 ∧
      (hc.Summary 100000000002).Failures = 29 ∧
      (hc.Summary 100000000002).Total = 100 ∧
      (hc.Summary 100000000002).ErrorPercentage = 8162774324609023 / 281474976710656 ∧
      (hc.Summary 100000000002).ErrorPercentage ≠ 100 * (29 : ℚ) / ((71 : ℚ) + (29 : ℚ)) := by
  have hN : hundredRequests.countP Request.isSuccess = 71 := by
    simp [hundredRequests, List.countP_append, List.countP_replicate, Request.isSuccess]
  have hM : hundredRequests.countP Request.isFail = 29 := by
    simp [hundredRequests, List.countP_append, List.countP_replicate, Request.isFail]
  refine ⟨hN, hM, ?_⟩
  obtain ⟨hc0, hnew, hwf0, hlive0, hw0, _, hs0, hf0⟩ := newHealthCounts_fresh 10 (by decide)
  have ht : ∀ r ∈ hundredRequests, ∀ t, r.recordTime = some t →
      0 < t ∧ t ≤ 100000000002 ∧ ((100000000002 : Nat) : Int) - (t : Int) ≤ hc0.window := by
    intro r hr t hrt
    rw [hw0]
    simp only [hundredRequests, List.mem_append, List.mem_replicate] at hr
    rcases hr with ⟨_, rfl⟩ | ⟨_, rfl⟩
    · simp only [Request.recordTime, Option.some.injEq] at hrt
      subst hrt
      decide
    · simp only [Request.recordTime, Option.some.injEq] at hrt
      subst hrt
      decide
  obtain ⟨hc, outs, hrun, hwf, hlive, _, hs, hf⟩ :=
    run_live hundredRequests hc0 100000000002 hwf0 (hlive0 _) ht
  obtain ⟨hS, hF⟩ := summary_live hc 100000000002 100000000002 hwf hlive (le_refl _)
  obtain ⟨_, _, hT, hE, _, _⟩ := doSummary_counts hc 100000000002
  rw [hs0, zero_add, hN] at hs
  rw [hf0, zero_add, hM] at hf
  rw [hs] at hS
  rw [hf] at hF
  have hT' : (hc.doSummary 100000000002).Total = 100 := by
    rw [hT, hS, hF]
    rfl
  have hp : Float64.mul (Float64.div (Float64.ofInt 29) (Float64.ofInt 100)) Float64.hundred =
      { mant := 8162774324609023, exp := -48 } := by decide
  have hE' : (hc.doSummary 100000000002).ErrorPercentage =
      8162774324609023 / 281474976710656 := by
    have h100 : ¬ ((100 : Int) = 0) := by decide
    have hF' : (hc.doSummary 100000000002).Failures = 29 := hF
    rw [hE, hT', hF', if_neg h100, hp]
    norm_num [Float64.toRat]
  refine ⟨hc0, hc, outs, hnew, hrun, hS, hF, hT', hE', ?_⟩
  show (hc.doSummary 100000000002).ErrorPercentage ≠ _
  rw [hE']
  norm_num

/-- C6, amended. For every window size `n` in `1..60`, dividing 60 or not, and
every sequence of requests served by a fresh counter whose records are all made
at a set clock reading not after `now` and at most `n` seconds before it (as is
the case for non-decreasing clock readings ending within `n` seconds of the
first record), the loop serves every request and the summary at `now` reports
Success = N, Failures = M and Total = N + M exactly, where N and M count the
Success and Fail requests: no record is lost to bucket aliasing or reset.
ErrorPercentage is 0 when N + M = 0 and otherwise the `float64` value of
`float64(M) / float64(N + M) * 100.0`, that is `100*M/(N+M)` with each operation
rounded to the nearest `float64`; it lies in `[0, 100]`, is exactly 0 when
M = 0 and exactly 100 when N = 0 < M. -/
theorem summary_counts_every_record_in_window (n : Int) (reqs : List Request) (now : Nat)
    (hn : 1 ≤ n ∧ n ≤ 60)
    (ht : ∀ r ∈ reqs, ∀ t, r.recordTime = some t →
      0 < t ∧ t ≤ now ∧ (now : Int) - (t : Int) ≤ n * Second) :
    ∃ hc0 hc outs, NewHealthCounts n = .ok hc0 ∧ hc0.run reqs = some (hc, outs) ∧
      (hc.Summary now).Success = (reqs.countP Request.isSuccess : Nat) ∧
      (hc.Summary now).Failures = (reqs.countP Request.isFail : Nat) ∧
      (hc.Summary now).Total =
        (reqs.countP Request.isSuccess : Nat) + (reqs.countP Request.isFail : Nat) ∧
      (hc.Summary now).ErrorPercentage =
        (if reqs.countP Request.isSuccess + reqs.countP Request.isFail = 0 then 0
         else (Float64.mul
            (Float64.div (Float64.ofInt (reqs.countP Request.isFail : Nat))
              (Float64.ofInt ((reqs.countP Request.isSuccess : Nat) +
                (reqs.countP Request.isFail : Nat))))
            Float64.hundred).toRat) ∧
      0 ≤ (hc.Summary now).ErrorPercentage ∧ (hc.Summary now).ErrorPercentage ≤ 100 ∧
      (reqs.countP Request.isFail = 0 → (hc.Summary now).ErrorPercentage = 0) ∧
      (reqs.countP Request.isSuccess = 0 → 0 < reqs.countP Request.isFail →
        (hc.Summary now).ErrorPercentage = 100) := by
  obtain ⟨hc0, hnew, hwf0, hlive0, hw0, _, hs0, hf0⟩ := newHealthCounts_fresh n hn
  have ht' : ∀ r ∈ reqs, ∀ t, r.recordTime = some t →
      0 < t ∧ t ≤ now ∧ (now : Int) - (t : Int) ≤ hc0.window := by
    rw [hw0]
    exact ht
  obtain ⟨hc, outs, hrun, hwf, hlive, _, hs, hf⟩ := run_live reqs hc0 now hwf0 (hlive0 now) ht'
  obtain ⟨hS, hF⟩ := summary_live hc now now hwf hlive (le_refl _)
  obtain ⟨_, _, hT, hE, _, _⟩ := doSummary_counts hc now
  rw [hs0, zero_add] at hs
  rw [hf0, zero_add] at hf
  rw [hs] at hS
  rw [hf] at hF
  have hT' : (hc.doSummary now).Total =
      (reqs.countP Request.isSuccess : Nat) + (reqs.countP Request.isFail : Nat) := by
    rw [hT, hS, hF]
  have hE' : (hc.doSummary now).ErrorPercentage =
      (if reqs.countP Request.isSuccess + reqs.countP Request.isFail = 0 then 0
       else (Float64.mul
          (Float64.div (Float64.ofInt (reqs.countP Request.isFail : Nat))
            (Float64.ofInt ((reqs.countP Request.isSuccess : Nat) +
              (reqs.countP Request.isFail : Nat))))
          Float64.hundred).toRat) := by
    rw [hE, hT', hF]
    by_cases hz : reqs.countP Request.isSuccess + reqs.countP Request.isFail = 0
    · have hz' : ((reqs.countP Request.isSuccess : Nat) : Int) +
          ((reqs.countP Request.isFail : Nat) : Int) = 0 := by omega
      rw [if_pos hz, if_pos hz']
    · have hz' : ¬ ((reqs.countP Request.isSuccess : Nat) : Int) +
          ((reqs.countP Request.isFail : Nat) : Int) = 0 := by omega
      rw [if_neg hz, if_neg hz']
  refine ⟨hc0, hc, outs, hnew, hrun, hS, hF, hT', hE', ?_, ?_, ?_, ?_⟩
  · show 0 ≤ (hc.doSummary now).ErrorPercentage
    rw [hE']
    split_ifs with hz
    · exact le_refl _
    · exact (float64_percentage_range _ _ (by omega) (by omega) (by omega)).1
  · show (hc.doSummary now).ErrorPercentage ≤ 100
    rw [hE']
    split_ifs with hz
    · norm_num
    · exact (float64_percentage_range _ _ (by omega) (by omega) (by omega)).2
  · intro hM
    show (hc.doSummary now).ErrorPercentage = 0
    rw [hE', hM]
    split_ifs with hz
    · rfl
    · exact float64_percentage_none _
  · intro hN hM
    show (hc.doSummary now).ErrorPercentage = 100
    rw [hE', hN]
    have hz : ¬ (0 + reqs.countP Request.isFail = 0) := by omega
    rw [if_neg hz]
    simp only [Nat.cast_zero, zero_add]
    exact float64_percentage_all _ (by omega)

/-- Witness of C6: with 7 buckets, a Fail at second 56 and a Success at second 0
of the next minute share bucket 0 and are both reported at second 1. -/
theorem summary_counts_every_record_in_window_witness :
    ∃ hc0 hc outs, NewHealthCounts 7 = .ok hc0 ∧
      hc0.run aliasingRequests = some (hc, outs) ∧
      (hc.Summary 61000000000).Success = 1 ∧
      (hc.Summary 61000000000).Failures = 1 ∧
      (hc.Summary 61000000000).Total = 2 := by
  obtain ⟨hc0, hc, outs, h0, hrun, hS, hF, hT, _⟩ :=
    summary_counts_every_record_in_window 7 aliasingRequests 61000000000 (by decide)
      (by
        intro r hr t hrt
        simp only [aliasingRequests, List.mem_cons, List.mem_singleton, List.not_mem_nil,
          or_false] at hr
        rcases hr with rfl | rfl | rfl
        · simp only [Request.recordTime, Option.some.injEq] at hrt
          subst hrt
          decide
        · simp [Request.recordTime] at hrt
        · simp only [Request.recordTime, Option.some.injEq] at hrt
          subst hrt
          decide)
  exact ⟨hc0, hc, outs, h0, hrun, hS.trans (by decide), hF.trans (by decide),
    hT.trans (by decide)⟩

/-- C7, the code at the failing input: with 10 buckets, a Success at 100.5 s and
a Success at 110.0 s select the same bucket; the second write finds the bucket
9.5 s old, keeps its count and refreshes lastWrite, so the summary at 115.0 s
reports Total = 2 although only one record is at most 10 s old. -/
theorem summary_counts_record_older_than_window :
    ∃ hc0 hc outs, NewHealthCounts 10 = .ok hc0 ∧
      hc0.run keptAliveRequests = some (hc, outs) ∧
      (hc.Summary 115000000000).Total = 2 ∧
      recordsInWindow keptAliveRequests 115000000000 hc.window = 1 ∧
      ¬ ((hc.Summary 115000000000).Total ≤
        (recordsInWindow keptAliveRequests 115000000000 hc.window : Nat)) := by
  refine ⟨_, _, _, rfl, rfl, ?_, ?_, ?_⟩
  · decide
  · decide
  · decide

/-- Run on its own, `update` returns the policy target and leaves the breaker in
it, counter and options untouched. -/
theorem update_eq (b : Breaker) (now : Nat) (receiverReady : Bool) :
    (b.update now receiverReady).ret = b.checkState now ∧
    (b.update now receiverReady).breaker = { b with state := b.checkState now } := by
  unfold Breaker.update Breaker.compareAndSwap
  by_cases h : b.state = b.checkState now
  · rw [if_pos h]
    refine ⟨h, ?_⟩
    show b = { b with state := b.checkState now }
    rw [← h]
  · rw [if_neg h, if_pos rfl]
    exact ⟨rfl, rfl⟩

/-- On a live counter holding only failures, at least one, the policy target at
an instant not after the bound is Open exactly when the failures reach the
minimum, provided the threshold is at most 100. -/
theorem checkState_all_failures (b : Breaker) (now hi : Nat) (k : Nat)
    (hwf : b.healthCounts.WellFormed) (hlive : b.healthCounts.Live hi) (hle : now ≤ hi)
    (hs : b.healthCounts.sumSuccess = 0) (hf : b.healthCounts.sumFailures = k)
    (hk : 0 < k) (hpct : b.options.ErrorsPercentage ≤ 100) :
    b.checkState now =
      (if (k : Int) ≥ b.options.MinimumNumberOfRequest then OpenState else CloseState) := by
  obtain ⟨hS, hF⟩ := summary_live b.healthCounts now hi hwf hlive hle
  obtain ⟨_, _, hT, hE, _, _⟩ := doSummary_counts b.healthCounts now
  rw [hs] at hS
  rw [hf] at hF
  have hT' : (b.healthCounts.doSummary now).Total = k := by rw [hT, hS, hF]; omega
  have hk0 : ¬ ((k : Int) = 0) := by omega
  have hE' : (b.healthCounts.doSummary now).ErrorPercentage = 100 := by
    rw [hE, hT', if_neg hk0, hF]
    exact float64_percentage_all (k : Int) (by omega)
  unfold Breaker.checkState checkStateOf HealthCounts.Summary
  rw [hT', hE']
  by_cases hm : (k : Int) ≥ b.options.MinimumNumberOfRequest
  · have h1 : ¬ ((k : Int) < b.options.MinimumNumberOfRequest) := not_lt.mpr hm
    rw [if_neg h1, if_pos hpct, if_pos hm]
  · have h1 : (k : Int) < b.options.MinimumNumberOfRequest := not_le.mp hm
    rw [if_pos h1, if_neg hm]

/-- One failing call on a Closed breaker whose live counter holds `k` failures
and no success, goroutine included: the counter then holds `k + 1` failures and
the state is the policy target for them. -/
theorem failing_call_step {σ : Type} (c : CallStep σ) (b : Breaker) (w : σ) (hi k : Nat)
    (hwf : b.healthCounts.WellFormed) (hlive : b.healthCounts.Live hi)
    (hs : b.healthCounts.sumSuccess = 0) (hf : b.healthCounts.sumFailures = k)
    (hstate : b.state = CloseState)
    (hpct : b.options.ErrorsPercentage ≤ 100)
    (hfail : (c.fn w).1 ≠ none)
    (hclk : 0 < c.clocks.bucket ∧ c.clocks.bucket ≤ hi ∧
      (hi : Int) - (c.clocks.bucket : Int) ≤ b.healthCounts.window ∧ c.clocks.update ≤ hi) :
    ∃ u, (b.Call c.fn w c.clocks.call c.receiverReady).breaker.runSpawned
        (b.Call c.fn w c.clocks.call c.receiverReady).spawned
        c.clocks.bucket c.clocks.mark c.clocks.update c.receiverReady = some u ∧
      (b.Call c.fn w c.clocks.call c.receiverReady).err = (c.fn w).1 ∧
      (b.Call c.fn w c.clocks.call c.receiverReady).world = (c.fn w).2 ∧
      u.breaker.options = b.options ∧
      u.breaker.healthCounts.WellFormed ∧ u.breaker.healthCounts.Live hi ∧
      u.breaker.healthCounts.window = b.healthCounts.window ∧
      u.breaker.healthCounts.sumSuccess = 0 ∧
      u.breaker.healthCounts.sumFailures = (k + 1 : Nat) ∧
      u.breaker.state =
        (if ((k + 1 : Nat) : Int) ≥ b.options.MinimumNumberOfRequest then OpenState
         else CloseState) := by
  obtain ⟨hp, hle, hwin, hupd⟩ := hclk
  obtain ⟨herr, hworld, hbr, hsp⟩ :=
    call_closed_eq b c.fn w c.clocks.call c.receiverReady hstate
  obtain ⟨_, ⟨h1, hF, hwf1, hl1, hw1, hs1, hf1⟩⟩ :=
    record_live b.healthCounts c.clocks.bucket c.clocks.mark hi hwf hlive hp hle hwin
  rw [hbr, hsp, if_neg hfail]
  have hs1' : h1.sumSuccess = 0 := by rw [hs1, hs]
  have hf1' : h1.sumFailures = (k + 1 : Nat) := by rw [hf1, hf]; push_cast; rfl
  have hcs := checkState_all_failures { b with healthCounts := h1 } c.clocks.update hi (k + 1)
    hwf1 hl1 hupd hs1' hf1' (Nat.succ_pos k) hpct
  obtain ⟨_, hub⟩ := update_eq { b with healthCounts := h1 } c.clocks.update c.receiverReady
  refine ⟨Breaker.update { b with healthCounts := h1 } c.clocks.update c.receiverReady,
    ?_, herr, hworld, ?_, ?_, ?_, ?_, ?_, ?_, ?_⟩
  · simp only [Breaker.runSpawned, Breaker.fail, HealthCounts.Fail, hF]
  · rw [hub]
  · rw [hub]; exact hwf1
  · rw [hub]; exact hl1
  · rw [hub]; exact hw1
  · rw [hub]; exact hs1'
  · rw [hub]; exact hf1'
  · rw [hub]; exact hcs

/-- Failing calls made in sequence on a Closed breaker, as long as their number
does not exceed what is missing to reach the minimum: every call is admitted and
recorded, and the breaker ends Open exactly when the minimum is reached. -/
theorem callsInSequence_failing {σ : Type} (calls : List (CallStep σ)) (b : Breaker) (w : σ)
    (hi k : Nat)
    (hwf : b.healthCounts.WellFormed) (hlive : b.healthCounts.Live hi)
    (hs : b.healthCounts.sumSuccess = 0) (hf : b.healthCounts.sumFailures = k)
    (hstate : b.state = CloseState)
    (hlen : ((k + calls.length : Nat) : Int) ≤ b.options.MinimumNumberOfRequest)
    (hpct : b.options.ErrorsPercentage ≤ 100)
    (hfail : ∀ c ∈ calls, ∀ w, (c.fn w).1 ≠ none)
    (hclk : ∀ c ∈ calls, 0 < c.clocks.bucket ∧ c.clocks.bucket ≤ hi ∧
      (hi : Int) - (c.clocks.bucket : Int) ≤ b.healthCounts.window ∧ c.clocks.update ≤ hi) :
    ∃ b1 w1 errs, b.callsInSequence w calls = some (b1, w1, errs) ∧
      b1.options = b.options ∧
      b1.healthCounts.WellFormed ∧ b1.healthCounts.Live hi ∧
      b1.healthCounts.sumSuccess = 0 ∧
      b1.healthCounts.sumFailures = (k + calls.length : Nat) ∧
      (∀ e ∈ errs, e ≠ none) ∧
      b1.state =
        (if 0 < calls.length ∧
            ((k + calls.length : Nat) : Int) ≥ b.options.MinimumNumberOfRequest
         then OpenState else CloseState) := by
  induction calls generalizing b w k with
  | nil =>
    refine ⟨b, w, [], rfl, rfl, hwf, hlive, hs, hf, ?_, ?_⟩
    · intro e he
      cases he
    · simp [hstate]
  | cons c cs ih =>
    obtain ⟨u, hrun, herr, hworld, hopt, hwf1, hl1, hw1, hs1, hf1, hst1⟩ :=
      failing_call_step c b w hi k hwf hlive hs hf hstate hpct
        (hfail c (List.mem_cons_self _ _) w) (hclk c (List.mem_cons_self _ _))
    have hlen' : ((k + (cs.length + 1) : Nat) : Int) ≤ b.options.MinimumNumberOfRequest := by
      simpa using hlen
    by_cases hreach : ((k + 1 : Nat) : Int) ≥ b.options.MinimumNumberOfRequest
    · have hcs : cs = [] := by
        apply List.length_eq_zero.mp
        push_cast at hlen' hreach
        omega
      subst hcs
      rw [if_pos hreach] at hst1
      refine ⟨u.breaker, (c.fn w).2, [(c.fn w).1], ?_, hopt, hwf1, hl1, hs1, ?_, ?_, ?_⟩
      · simp only [Breaker.callsInSequence, hrun, herr, hworld]
      · simpa using hf1
      · intro e he
        rw [List.mem_singleton] at he
        rw [he]
        exact hfail c (List.mem_cons_self _ _) w
      · rw [hst1, if_pos]
        exact ⟨by simp, by simpa using hreach⟩
    · rw [if_neg hreach] at hst1
      have hlen1 : (((k + 1) + cs.length : Nat) : Int) ≤
          u.breaker.options.MinimumNumberOfRequest := by
        rw [hopt]
        push_cast at hlen' ⊢
        omega
      obtain ⟨b2, w2, errs, hrun2, hopt2, hwf2, hl2, hs2, hf2, herrs2, hst2⟩ :=
        ih u.breaker (c.fn w).2 (k + 1) hwf1 hl1 hs1 hf1 hst1 hlen1
          (by rw [hopt]; exact hpct)
          (fun c' hc' => hfail c' (List.mem_cons_of_mem _ hc'))
          (fun c' hc' => by
            rw [hw1]
            exact hclk c' (List.mem_cons_of_mem _ hc'))
      refine ⟨b2, w2, (c.fn w).1 :: errs, ?_, hopt2.trans hopt, hwf2, hl2, hs2, ?_, ?_, ?_⟩
      · simp only [Breaker.callsInSequence, hrun, herr, hworld, hrun2]
      · rw [hf2]
        simp only [List.length_cons]
        push_cast
        omega
      · intro e he
        rcases List.mem_cons.mp he with h | h
        · rw [h]
          exact hfail c (List.mem_cons_self _ _) w
        · exact herrs2 e h
      · rw [hst2, hopt]
        by_cases hcs : cs = []
        · subst hcs
          have hn : ¬ (((k + [c].length : Nat) : Int) ≥ b.options.MinimumNumberOfRequest) := by
            simpa using hreach
          rw [if_neg (fun h => absurd h.1 (by simp)), if_neg (fun h => hn h.2)]
        · have he : ((k + 1 + cs.length : Nat) : Int) = ((k + (c :: cs).length : Nat) : Int) := by
            simp only [List.length_cons]
            push_cast
            omega
          have hpos : 0 < cs.length := List.length_pos.mpr hcs
          have hpos' : 0 < (c :: cs).length := by simp
          rw [he]
          simp only [hpos, hpos', true_and]

/-- On an Open breaker whose policy target is still Open, `Call` rejects the
call: the operation is not run and nothing changes. -/
theorem call_open_rejected {σ : Type} (b : Breaker) (fn : σ → Option GoError × σ) (w : σ)
    (now : Nat) (receiverReady : Bool)
    (hopen : b.state = OpenState) (hcs : b.checkState now = OpenState) :
    (b.Call fn w now receiverReady).err = some GoError.ErrBreakerOpen ∧
    (b.Call fn w now receiverReady).world = w ∧
    (b.Call fn w now receiverReady).spawned = none ∧
    (b.Call fn w now receiverReady).breaker = b := by
  obtain ⟨hret, hbr⟩ := update_eq b now receiverReady
  rw [hcs] at hret hbr
  have hb : ({ b with state := OpenState } : Breaker) = b := by
    rw [← hopen]
  unfold Breaker.Call
  simp only [hopen, hret, if_true, hbr]
  exact ⟨trivial, trivial, trivial, hb⟩

/-- C4. For every options value with `MinimumNumberOfRequest = m >= 1`,
`ErrorsPercentage <= 100` (in particular `0 < ErrorsPercentage <= 100`) and a
valid window, on a fresh breaker: after `m` calls whose operation fails, each
recorded and evaluated before the next call, all records made at set clock
readings within the window of `tNext` and all evaluations not after `tNext`,
every call was admitted and returned its error, the state is Open, and a call
made at `tNext` returns `ErrBreakerOpen` without running its operation. -/
theorem opens_after_minimum_failures {σ : Type} (opt : Options) (calls : List (CallStep σ))
    (w : σ) (tNext : Nat)
    (hm : 1 ≤ opt.MinimumNumberOfRequest)
    (hpct : opt.ErrorsPercentage ≤ 100)
    (hn : 1 ≤ opt.NumberOfSecondsToStore ∧ opt.NumberOfSecondsToStore ≤ 60)
    (hlen : (calls.length : Int) = opt.MinimumNumberOfRequest)
    (hfail : ∀ c ∈ calls, ∀ w, (c.fn w).1 ≠ none)
    (hclk : ∀ c ∈ calls, 0 < c.clocks.bucket ∧ c.clocks.bucket ≤ tNext ∧
      (tNext : Int) - (c.clocks.bucket : Int) ≤ opt.NumberOfSecondsToStore * Second ∧
      c.clocks.update ≤ tNext) :
    ∃ b0 b w1 errs, NewBreaker opt = .ok b0 ∧
      b0.callsInSequence w calls = some (b, w1, errs) ∧
      (∀ e ∈ errs, e ≠ none) ∧
      b.state = OpenState ∧
      ∀ (fn : σ → Option GoError × σ) (w2 : σ) (receiverReady : Bool),
        (b.Call fn w2 tNext receiverReady).err = some GoError.ErrBreakerOpen ∧
        (b.Call fn w2 tNext receiverReady).world = w2 ∧
        (b.Call fn w2 tNext receiverReady).spawned = none ∧
        (b.Call fn w2 tNext receiverReady).breaker.state = OpenState := by
  obtain ⟨hc0, hnew, hwf0, hlive0, hw0, _, hs0, hf0⟩ :=
    newHealthCounts_fresh opt.NumberOfSecondsToStore hn
  have hb0 : NewBreaker opt =
      .ok { state := CloseState, options := opt, healthCounts := hc0 } := by
    unfold NewBreaker
    rw [hnew]
  have hlen0 : ((0 + calls.length : Nat) : Int) ≤ opt.MinimumNumberOfRequest := by
    rw [Nat.zero_add, hlen]
  obtain ⟨b, w1, errs, hrun, hopt, hwf, hlive, hs, hf, herrs, hst⟩ :=
    callsInSequence_failing calls
      { state := CloseState, options := opt, healthCounts := hc0 } w tNext 0
      hwf0 (hlive0 tNext) hs0 (by rw [hf0]; rfl) rfl hlen0 hpct hfail
      (by
        intro c hc
        show _ ∧ _ ∧ (tNext : Int) - (c.clocks.bucket : Int) ≤ hc0.window ∧ _
        rw [hw0]
        exact hclk c hc)
  have hpos : 0 < calls.length := by omega
  have hreach : ((0 + calls.length : Nat) : Int) ≥ opt.MinimumNumberOfRequest := by
    rw [Nat.zero_add, hlen]
  have hopen : b.state = OpenState := by
    rw [hst, if_pos ⟨hpos, hreach⟩]
  have hcs : b.checkState tNext = OpenState := by
    rw [checkState_all_failures b tNext tNext (0 + calls.length) hwf hlive (le_refl _) hs hf
      (by omega) (by rw [hopt]; exact hpct), hopt, if_pos hreach]
  refine ⟨_, b, w1, errs, hb0, hrun, herrs, hopen, ?_⟩
  intro fn w2 receiverReady
  obtain ⟨h1, h2, h3, h4⟩ := call_open_rejected b fn w2 tNext receiverReady hopen hcs
  exact ⟨h1, h2, h3, by rw [h4]; exact hopen⟩

/-- Witness of C4: the options of the test (window 2 s, minimum 3, threshold
50): after the three failing calls the breaker is Open and the fourth call is
rejected without running `returnNilError`. -/
theorem opens_after_minimum_failures_witness :
    ∃ b0 b w1 errs, NewBreaker OptionsForTest = .ok b0 ∧
      b0.callsInSequence 0 threeFailingCalls = some (b, w1, errs) ∧
      b.state = OpenState ∧
      (b.Call returnNilError w1 100010000000 true).err = some GoError.ErrBreakerOpen ∧
      (b.Call returnNilError w1 100010000000 true).world = w1 := by
  obtain ⟨b0, b, w1, errs, h0, hrun, _, hopen, hnext⟩ :=
    opens_after_minimum_failures OptionsForTest threeFailingCalls 0 100010000000
      (by decide) (by norm_num [OptionsForTest]) (by decide) (by decide)
      (by
        intro c hc w
        simp only [threeFailingCalls, List.mem_cons, List.mem_singleton, List.not_mem_nil,
          or_false] at hc
        rcases hc with rfl | rfl | rfl <;> simp [returnAnError])
      (by
        intro c hc
        simp only [threeFailingCalls, List.mem_cons, List.mem_singleton, List.not_mem_nil,
          or_false] at hc
        rcases hc with rfl | rfl | rfl <;> decide)
  exact ⟨b0, b, w1, errs, h0, hrun, hopen, (hnext returnNilError w1 true).1,
    (hnext returnNilError w1 true).2.1⟩

/-- The summary of a counter that stores nothing reports zero counts and a zero
error percentage. -/
theorem doSummary_of_empty (hc : HealthCounts) (now hi : Nat)
    (hwf : hc.WellFormed) (hlive : hc.Live hi) (hle : now ≤ hi)
    (hs : hc.sumSuccess = 0) (hf : hc.sumFailures = 0) :
    (hc.doSummary now).Failures = 0 ∧ (hc.doSummary now).Success = 0 ∧
    (hc.doSummary now).Total = 0 ∧ (hc.doSummary now).ErrorPercentage = 0 := by
  obtain ⟨hS, hF⟩ := summary_live hc now hi hwf hlive hle
  obtain ⟨_, _, hT, hE, _, _⟩ := doSummary_counts hc now
  rw [hs] at hS
  rw [hf] at hF
  have hT' : (hc.doSummary now).Total = 0 := by rw [hT, hS, hF]; rfl
  exact ⟨hF, hS, hT', by rw [hE, if_pos hT']⟩

/-- C11. `NewBreaker opt` fails, returning no breaker, exactly when
`opt.NumberOfSecondsToStore` is outside `1..60`, and then with
`ErrNumberOfSecondsToStoreOutOfBounds`; otherwise it returns a breaker whose
`State()` is Closed, whose `GetOptions()` is `opt` unchanged and whose
`Health()` reports zero counts, a zero error percentage and unset markers at
every instant.  Whether it fails depends on `NumberOfSecondsToStore` only, not
on `ErrorsPercentage` or `MinimumNumberOfRequest`. -/
theorem newBreaker_bounds (opt : Options) :
    (NewBreaker opt = .error GoError.ErrNumberOfSecondsToStoreOutOfBounds ↔
      (opt.NumberOfSecondsToStore ≤ 0 ∨ opt.NumberOfSecondsToStore > 60)) ∧
    ((∃ e, NewBreaker opt = .error e) ↔
      (opt.NumberOfSecondsToStore ≤ 0 ∨ opt.NumberOfSecondsToStore > 60)) ∧
    ((1 ≤ opt.NumberOfSecondsToStore ∧ opt.NumberOfSecondsToStore ≤ 60) →
      ∃ b, NewBreaker opt = .ok b ∧ b.State = CloseState ∧ b.GetOptions = opt ∧
        ∀ now, (b.Health now).Failures = 0 ∧ (b.Health now).Success = 0 ∧
          (b.Health now).Total = 0 ∧ (b.Health now).ErrorPercentage = 0 ∧
          (b.Health now).LastFailure = 0 ∧ (b.Health now).LastSuccess = 0) ∧
    (∀ (errorsPercentage : ℚ) (minimumNumberOfRequest : Int),
      (∃ e, NewBreaker { opt with ErrorsPercentage := errorsPercentage
                                  MinimumNumberOfRequest := minimumNumberOfRequest } =
          .error e) ↔ (∃ e, NewBreaker opt = .error e)) := by
  have key : ∀ o : Options,
      (NewBreaker o = .error GoError.ErrNumberOfSecondsToStoreOutOfBounds ↔
        (o.NumberOfSecondsToStore ≤ 0 ∨ o.NumberOfSecondsToStore > 60)) ∧
      ((∃ e, NewBreaker o = .error e) ↔
        (o.NumberOfSecondsToStore ≤ 0 ∨ o.NumberOfSecondsToStore > 60)) := by
    intro o
    by_cases h : o.NumberOfSecondsToStore ≤ 0 ∨ o.NumberOfSecondsToStore > 60
    · have hnew : NewBreaker o = .error GoError.ErrNumberOfSecondsToStoreOutOfBounds := by
        unfold NewBreaker NewHealthCounts
        rw [if_pos h]
      exact ⟨⟨fun _ => h, fun _ => hnew⟩, ⟨fun _ => h, fun _ => ⟨_, hnew⟩⟩⟩
    · obtain ⟨hc, hnew, _⟩ := newHealthCounts_fresh o.NumberOfSecondsToStore (by omega)
      have hb : NewBreaker o = .ok { state := CloseState, options := o, healthCounts := hc } := by
        unfold NewBreaker
        rw [hnew]
      refine ⟨⟨fun he => ?_, fun hn => absurd hn h⟩, ⟨fun he => ?_, fun hn => absurd hn h⟩⟩
      · rw [hb] at he
        cases he
      · obtain ⟨e, he⟩ := he
        rw [hb] at he
        cases he
  refine ⟨(key opt).1, (key opt).2, ?_, ?_⟩
  · intro hn
    obtain ⟨hc, hnew, hwf, hlive, _, _, hs, hf⟩ :=
      newHealthCounts_fresh opt.NumberOfSecondsToStore hn
    have hmarks : hc.lastFailure = 0 ∧ hc.lastSuccess = 0 := by
      have hcond : ¬ (opt.NumberOfSecondsToStore ≤ 0 ∨ opt.NumberOfSecondsToStore > 60) := by
        omega
      unfold NewHealthCounts at hnew
      rw [if_neg hcond] at hnew
      injection hnew with hnew
      rw [← hnew]
      exact ⟨rfl, rfl⟩
    refine ⟨{ state := CloseState, options := opt, healthCounts := hc }, ?_, rfl, rfl, ?_⟩
    · unfold NewBreaker
      rw [hnew]
    · intro now
      obtain ⟨h1, h2, h3, h4⟩ := doSummary_of_empty hc now now hwf (hlive now) (le_refl _) hs hf
      obtain ⟨_, _, _, _, h5, h6⟩ := doSummary_counts hc now
      exact ⟨h1, h2, h3, h4, h5.trans hmarks.1, h6.trans hmarks.2⟩
  · intro ep m
    rw [(key opt).2]
    exact (key { opt with ErrorsPercentage := ep, MinimumNumberOfRequest := m }).2

/-- C12. `update` run without interference: when the policy target equals the
current state the breaker is unchanged and no send on `changes` is attempted
(so once Open, further failures publish nothing); when it differs the state
becomes the target and exactly one send is attempted, carrying the target,
delivered only when a receiver is ready; in both cases the value returned is
the state of the breaker afterwards, and counter and options are untouched. -/
theorem update_transitions (b : Breaker) (now : Nat) (receiverReady : Bool) :
    (b.state = b.checkState now →
      (b.update now receiverReady).breaker = b ∧
      (b.update now receiverReady).attempted = [] ∧
      (b.update now receiverReady).delivered = []) ∧
    (b.state ≠ b.checkState now →
      (b.update now receiverReady).breaker.state = b.checkState now ∧
      (b.update now receiverReady).attempted = [b.checkState now] ∧
      (b.update now receiverReady).delivered =
        (if receiverReady then [b.checkState now] else [])) ∧
    (b.update now receiverReady).attempted.length ≤ 1 ∧
    (b.update now receiverReady).delivered.length ≤
      (b.update now receiverReady).attempted.length ∧
    (b.update now receiverReady).ret = (b.update now receiverReady).breaker.state ∧
    (b.update now receiverReady).breaker.healthCounts = b.healthCounts ∧
    (b.update now receiverReady).breaker.options = b.options := by
  unfold Breaker.update Breaker.compareAndSwap
  by_cases h : b.state = b.checkState now
  · rw [if_pos h]
    refine ⟨fun _ => ⟨rfl, rfl, rfl⟩, fun hn => absurd h hn, ?_, ?_, rfl, rfl, rfl⟩
    · exact Nat.zero_le _
    · exact Nat.le_refl _
  · rw [if_neg h, if_pos rfl]
    refine ⟨fun he => absurd he h, fun _ => ⟨rfl, rfl, rfl⟩, ?_, ?_, rfl, rfl, rfl⟩
    · exact Nat.le_refl _
    · cases receiverReady
      · exact Nat.zero_le _
      · exact Nat.le_refl _

/-- A record on a well-formed counter succeeds: the selected bucket exists, and
afterwards it holds the counts of the old bucket, or of the old bucket reset,
with one more of the recorded kind, stamped with the clock. -/
theorem record_total (hc : HealthCounts) (now now2 : Nat) (hwf : hc.WellFormed) :
    ∃ i v w, hc.index now = some i ∧ i < hc.values.length ∧ hc.values[i]? = some v ∧
      (w = v ∨ w = v.reset) ∧
      hc.bucket now = some
        ({ hc with
            values := hc.values.set i
              { failures := w.failures, success := w.success, lastWrite := now } }, i) ∧
      hc.doSuccess now now2 = some
        { hc with
          values := hc.values.set i
            { failures := w.failures, success := w.success + 1, lastWrite := now }
          lastSuccess := now2 } ∧
      hc.doFail now now2 = some
        { hc with
          values := hc.values.set i
            { failures := w.failures + 1, success := w.success, lastWrite := now }
          lastFailure := now2 } := by
  obtain ⟨i, hidx, hlt⟩ := index_lt_length hc now hwf
  have hv : hc.values[i]? = some hc.values[i] := List.getElem?_eq_getElem hlt
  refine ⟨i, hc.values[i],
    (if !Time.IsZero (hc.values[i]).lastWrite then
      (if Time.Sub now (hc.values[i]).lastWrite > hc.window then (hc.values[i]).reset
       else hc.values[i])
     else hc.values[i]), hidx, hlt, hv, ?_,
    bucket_eq hc now i _ hidx hv, doSuccess_eq hc now now2 i _ hidx hv,
    doFail_eq hc now now2 i _ hidx hv⟩
  by_cases h1 : (!Time.IsZero (hc.values[i]).lastWrite) = true
  · by_cases h2 : Time.Sub now (hc.values[i]).lastWrite > hc.window
    · right
      rw [if_pos h1, if_pos h2]
    · left
      rw [if_pos h1, if_neg h2]
  · left
    rw [if_neg h1]

/-- One iteration of the loop on a well-formed counter succeeds and leaves the
counter well formed, with the same number of buckets and the same window. -/
theorem step_total (hc : HealthCounts) (r : Request) (hwf : hc.WellFormed) :
    ∃ h1 outs, hc.step r = some (h1, outs) ∧ h1.WellFormed ∧
      h1.buckets = hc.buckets ∧ h1.window = hc.window ∧
      h1.values.length = hc.values.length := by
  obtain ⟨hb, hlen, hlo, hhi⟩ := hwf
  cases r with
  | success now now2 =>
    obtain ⟨i, v, w, _, _, _, _, _, hS, _⟩ := record_total hc now now2 ⟨hb, hlen, hlo, hhi⟩
    refine ⟨{ hc with
        values := hc.values.set i
          { failures := w.failures, success := w.success + 1, lastWrite := now }
        lastSuccess := now2 }, [], ?_, ⟨hb, ?_, hlo, hhi⟩, rfl, rfl, ?_⟩
    · simp only [HealthCounts.step, hS, Option.map_some']
    · simpa using hlen
    · simp
  | fail now now2 =>
    obtain ⟨i, v, w, _, _, _, _, _, _, hF⟩ := record_total hc now now2 ⟨hb, hlen, hlo, hhi⟩
    refine ⟨{ hc with
        values := hc.values.set i
          { failures := w.failures + 1, success := w.success, lastWrite := now }
        lastFailure := now2 }, [], ?_, ⟨hb, ?_, hlo, hhi⟩, rfl, rfl, ?_⟩
    · simp only [HealthCounts.step, hF, Option.map_some']
    · simpa using hlen
    · simp
  | summary now =>
    exact ⟨hc, [hc.doSummary now], rfl, ⟨hb, hlen, hlo, hhi⟩, rfl, rfl, rfl⟩

/-- Serving any requests on a well-formed counter never fails; a property that
every iteration preserves (for requests satisfying `Q`) holds afterwards, and
every summary sent was taken on a well-formed counter having the property. -/
theorem run_invariant (P : HealthCounts → Prop) (Q : Request → Prop)
    (hP : ∀ hc r h1 outs, hc.WellFormed → P hc → Q r → hc.step r = some (h1, outs) → P h1)
    (reqs : List Request) (hc : HealthCounts) (hwf : hc.WellFormed) (hp : P hc)
    (hq : ∀ r ∈ reqs, Q r) :
    ∃ h1 outs, hc.run reqs = some (h1, outs) ∧ h1.WellFormed ∧ P h1 ∧
      h1.buckets = hc.buckets ∧ h1.window = hc.window ∧
      h1.values.length = hc.values.length ∧
      ∀ s ∈ outs, ∃ h2 t, h2.WellFormed ∧ P h2 ∧ s = h2.doSummary t := by
  induction reqs generalizing hc with
  | nil =>
    refine ⟨hc, [], rfl, hwf, hp, rfl, rfl, rfl, ?_⟩
    intro s hs
    cases hs
  | cons r rs ih =>
    obtain ⟨h1, out1, hstep, hwf1, hb1, hw1, hl1⟩ := step_total hc r hwf
    have hp1 : P h1 := hP hc r h1 out1 hwf hp (hq r (List.mem_cons_self _ _)) hstep
    obtain ⟨h2, out2, hrun, hwf2, hp2, hb2, hw2, hl2, hout2⟩ :=
      ih h1 hwf1 hp1 (fun r' hr' => hq r' (List.mem_cons_of_mem _ hr'))
    refine ⟨h2, out1 ++ out2, ?_, hwf2, hp2, hb2.trans hb1, hw2.trans hw1, hl2.trans hl1, ?_⟩
    · simp only [HealthCounts.run, hstep, hrun]
    · intro s hs
      rcases List.mem_append.mp hs with h | h
      · cases r with
        | success now now2 =>
          simp only [HealthCounts.step] at hstep
          cases hd : hc.doSuccess now now2 with
          | none => rw [hd] at hstep; cases hstep
          | some h3 =>
            rw [hd] at hstep
            simp only [Option.map_some', Option.some.injEq, Prod.mk.injEq] at hstep
            rw [← hstep.2] at h
            cases h
        | fail now now2 =>
          simp only [HealthCounts.step] at hstep
          cases hd : hc.doFail now now2 with
          | none => rw [hd] at hstep; cases hstep
          | some h3 =>
            rw [hd] at hstep
            simp only [Option.map_some', Option.some.injEq, Prod.mk.injEq] at hstep
            rw [← hstep.2] at h
            cases h
        | summary now =>
          simp only [HealthCounts.step, Option.some.injEq, Prod.mk.injEq] at hstep
          rw [← hstep.2, List.mem_singleton] at h
          exact ⟨hc, now, hwf, hp, h⟩
      · exact hout2 s h

/-- C20. Bucket selection never fails: on every counter reached from
`NewHealthCounts n` (`n` in `1..60`) by serving any requests, which the loop
always does, `buckets` is still `n` and `len(values)` is still `n`; at every
instant the modulus of `now.Second() % buckets` is non-zero and the index is
below `len(values)`, so `bucket`, `doSuccess` and `doFail` return (no division
by zero, no index out of range). -/
theorem bucket_selection_never_fails (n : Int) (reqs : List Request) (now now2 : Nat)
    (hn : 1 ≤ n ∧ n ≤ 60) :
    ∃ hc0 hc outs, NewHealthCounts n = .ok hc0 ∧ hc0.run reqs = some (hc, outs) ∧
      hc.buckets = n ∧ (hc.values.length : Int) = n ∧ hc.buckets ≠ 0 ∧
      (∃ i, hc.index now = some i ∧ i < hc.values.length ∧
        (i : Int) = Int.tmod (Time.Second now) hc.buckets) ∧
      (hc.bucket now).isSome = true ∧
      (hc.doSuccess now now2).isSome = true ∧
      (hc.doFail now now2).isSome = true := by
  obtain ⟨hc0, hnew, hwf0, _, _, hb0, _, _⟩ := newHealthCounts_fresh n hn
  obtain ⟨hc, outs, hrun, hwf, _, hb, _, hl, _⟩ :=
    run_invariant (fun _ => True) (fun _ => True) (fun _ _ _ _ _ _ _ _ => trivial)
      reqs hc0 hwf0 trivial (fun _ _ => trivial)
  obtain ⟨i, v, w, hidx, hlt, _, _, hB, hS, hF⟩ := record_total hc now now2 hwf
  have hbn : hc.buckets = n := hb.trans hb0
  have hne : hc.buckets ≠ 0 := by omega
  refine ⟨hc0, hc, outs, hnew, hrun, hbn, ?_, hne, ⟨i, hidx, hlt, ?_⟩, ?_, ?_, ?_⟩
  · rw [← hbn]
    exact hwf.2.1
  · unfold HealthCounts.index at hidx
    rw [if_neg hne] at hidx
    injection hidx with hidx
    rw [← hidx]
    have hsec : (0 : Int) ≤ Time.Second now := by
      unfold Time.Second
      exact Int.ofNat_nonneg _
    exact Int.toNat_of_nonneg (Int.tmod_nonneg hc.buckets hsec)
  · rw [hB]; rfl
  · rw [hS]; rfl
  · rw [hF]; rfl

/-- Witness of C20: a 7-bucket counter after three requests, asked for a bucket
at second 59 of a minute. -/
theorem bucket_selection_never_fails_witness :
    ∃ hc0 hc outs, NewHealthCounts 7 = .ok hc0 ∧
      hc0.run aliasingRequests = some (hc, outs) ∧
      hc.buckets = 7 ∧ (hc.values.length : Int) = 7 ∧
      (hc.doSuccess 119000000000 119000000001).isSome = true := by
  obtain ⟨hc0, hc, outs, h0, hrun, hb, hl, _, _, _, hS, _⟩ :=
    bucket_selection_never_fails 7 aliasingRequests 119000000000 119000000001 (by decide)
  exact ⟨hc0, hc, outs, h0, hrun, hb, hl, hS⟩

/-- The fields of the counter `NewHealthCounts` returns. -/
theorem newHealthCounts_values (n : Int) (hc : HealthCounts)
    (h : NewHealthCounts n = .ok hc) :
    hc.values = List.replicate n.toNat HealthCountsBucket.zero ∧ hc.buckets = n ∧
      hc.window = n * Second ∧ hc.lastFailure = 0 ∧ hc.lastSuccess = 0 := by
  unfold NewHealthCounts at h
  by_cases hcond : n ≤ 0 ∨ n > 60
  · rw [if_pos hcond] at h
    cases h
  · rw [if_neg hcond] at h
    injection h with h
    rw [← h]
    exact ⟨rfl, rfl, rfl, rfl, rfl⟩

/-- What a successful iteration of the loop did, by kind of request. -/
theorem step_eq (hc : HealthCounts) (r : Request) (h1 : HealthCounts)
    (outs : List HealthSummary) (h : hc.step r = some (h1, outs)) :
    (∀ now now2, r = .success now now2 → hc.doSuccess now now2 = some h1 ∧ outs = []) ∧
    (∀ now now2, r = .fail now now2 → hc.doFail now now2 = some h1 ∧ outs = []) ∧
    (∀ now, r = .summary now → h1 = hc ∧ outs = [hc.doSummary now]) := by
  refine ⟨?_, ?_, ?_⟩
  · intro now now2 hr
    subst hr
    simp only [HealthCounts.step] at h
    cases hd : hc.doSuccess now now2 with
    | none => rw [hd] at h; cases h
    | some h3 =>
      rw [hd] at h
      simp only [Option.map_some', Option.some.injEq, Prod.mk.injEq] at h
      exact ⟨by rw [h.1], h.2.symm⟩
  · intro now now2 hr
    subst hr
    simp only [HealthCounts.step] at h
    cases hd : hc.doFail now now2 with
    | none => rw [hd] at h; cases h
    | some h3 =>
      rw [hd] at h
      simp only [Option.map_some', Option.some.injEq, Prod.mk.injEq] at h
      exact ⟨by rw [h.1], h.2.symm⟩
  · intro now hr
    subst hr
    simp only [HealthCounts.step, Option.some.injEq, Prod.mk.injEq] at h
    exact ⟨h.1.symm, h.2.symm⟩

/-- An iteration of the loop keeps the counts non-negative. -/
theorem step_nonNeg (hc : HealthCounts) (r : Request) (h1 : HealthCounts)
    (outs : List HealthSummary) (hwf : hc.WellFormed) (hp : hc.NonNeg)
    (h : hc.step r = some (h1, outs)) : h1.NonNeg := by
  obtain ⟨hsu, hfa, hsm⟩ := step_eq hc r h1 outs h
  have hnew : ∀ (i : Nat) (a : HealthCountsBucket), 0 ≤ a.success → 0 ≤ a.failures →
      ∀ v ∈ hc.values.set i a, 0 ≤ v.success ∧ 0 ≤ v.failures := by
    intro i a hs hf v hv
    rcases List.mem_or_eq_of_mem_set hv with hm | hm
    · exact hp v hm
    · rw [hm]
      exact ⟨hs, hf⟩
  have hw : ∀ (i : Nat) (v w : HealthCountsBucket), hc.values[i]? = some v →
      (w = v ∨ w = v.reset) → 0 ≤ w.success ∧ 0 ≤ w.failures := by
    intro i v w hv hor
    rcases hor with hh | hh
    · rw [hh]
      exact hp v (List.getElem?_mem hv)
    · rw [hh]
      exact ⟨le_refl _, le_refl _⟩
  cases r with
  | success now now2 =>
    obtain ⟨i, v, w, _, _, hv, hor, _, hS, _⟩ := record_total hc now now2 hwf
    have he := (hsu now now2 rfl).1
    rw [hS] at he
    injection he with he
    rw [← he]
    obtain ⟨h2, h3⟩ := hw i v w hv hor
    exact hnew i _ (by show 0 ≤ w.success + 1; omega) h3
  | fail now now2 =>
    obtain ⟨i, v, w, _, _, hv, hor, _, _, hF⟩ := record_total hc now now2 hwf
    have he := (hfa now now2 rfl).1
    rw [hF] at he
    injection he with he
    rw [← he]
    obtain ⟨h2, h3⟩ := hw i v w hv hor
    exact hnew i _ h2 (by show 0 ≤ w.failures + 1; omega)
  | summary now =>
    rw [(hsm now rfl).1]
    exact hp

/-- The summary of a counter with non-negative counts is in range. -/
theorem doSummary_inRange (hc : HealthCounts) (now : Nat) (hp : hc.NonNeg) :
    (hc.doSummary now).InRange ∧ 0 ≤ (hc.doSummary now).Success := by
  obtain ⟨hS, hF, hT, hE, _, _⟩ := doSummary_counts hc now
  have hS0 : 0 ≤ (hc.doSummary now).Success := by
    rw [hS]
    apply List.sum_nonneg
    intro x hx
    obtain ⟨v, hv, rfl⟩ := List.mem_map.mp hx
    exact (hp v (List.mem_of_mem_filter hv)).1
  have hF0 : 0 ≤ (hc.doSummary now).Failures := by
    rw [hF]
    apply List.sum_nonneg
    intro x hx
    obtain ⟨v, hv, rfl⟩ := List.mem_map.mp hx
    exact (hp v (List.mem_of_mem_filter hv)).2
  have hFT : (hc.doSummary now).Failures ≤ (hc.doSummary now).Total := by
    rw [hT]
    omega
  refine ⟨⟨hF0, hFT, ?_, ?_, ?_, ?_⟩, hS0⟩
  · intro h0
    rw [hE, if_pos h0]
  · intro h0
    rw [hE, if_neg h0]
  · rw [hE]
    by_cases h0 : (hc.doSummary now).Total = 0
    · rw [if_pos h0]
    · rw [if_neg h0]
      exact (float64_percentage_range _ _ hF0 hFT (by omega)).1
  · rw [hE]
    by_cases h0 : (hc.doSummary now).Total = 0
    · rw [if_pos h0]
      norm_num
    · rw [if_neg h0]
      exact (float64_percentage_range _ _ hF0 hFT (by omega)).2

/-- C14 as stated fails for the percentage: on the 3-bucket counter that served
two successes and one failure, Failures = 1 and Total = 3, and the error
percentage is `float64(1) / float64(3) * 100.0 = 4691249611844266 / 2 ^ 47`
(33.33333333333333), not the exact `1 / 3 * 100`. -/
theorem percentage_is_rounded_counterexample :
    NewHealthCounts 3 = .ok counts3 ∧
    counts3.run oneInThreeRequests = some (countsOneInThree, []) ∧
    (countsOneInThree.Summary 100000003000).Failures = 1 ∧
    (countsOneInThree.Summary 100000003000).Total = 3 ∧
    (countsOneInThree.Summary 100000003000).ErrorPercentage =
      4691249611844266 / 140737488355328 ∧
    (countsOneInThree.Summary 100000003000).ErrorPercentage ≠
      ((countsOneInThree.Summary 100000003000).Failures : ℚ) /
        ((countsOneInThree.Summary 100000003000).Total : ℚ) * 100 := by
  have hF : (countsOneInThree.doSummary 100000003000).Failures = 1 := by decide
  have hT : (countsOneInThree.doSummary 100000003000).Total = 3 := by decide
  have hp : Float64.mul (Float64.div (Float64.ofInt 1) (Float64.ofInt 3)) Float64.hundred =
      { mant := 4691249611844266, exp := -47 } := by decide
  have hE : (countsOneInThree.doSummary 100000003000).ErrorPercentage =
      4691249611844266 / 140737488355328 := by
    have h3 : ¬ ((3 : Int) = 0) := by decide
    rw [(doSummary_counts countsOneInThree 100000003000).2.2.2.1, hT, hF, if_neg h3, hp]
    norm_num [Float64.toRat]
  refine ⟨rfl, rfl, hF, hT, hE, ?_⟩
  show (countsOneInThree.doSummary 100000003000).ErrorPercentage ≠
    ((countsOneInThree.doSummary 100000003000).Failures : ℚ) /
      ((countsOneInThree.doSummary 100000003000).Total : ℚ) * 100
  rw [hE, hF, hT]
  norm_num

/-- C14, amended. On every counter reached from `NewHealthCounts n` (`n` in
`1..60`) by serving Success, Fail and Summary requests, counts being exact
integers: every bucket has `success >= 0` and `failures >= 0`, and every
summary, the ones sent while the requests were served and one taken afterwards
at any instant, has `0 <= Failures <= Total` and an ErrorPercentage equal to 0
when `Total = 0` and otherwise to the `float64` value of
`float64(Failures) / float64(Total) * 100.0` (`Failures / Total * 100` with each
operation rounded to the nearest `float64`), which is always within `[0, 100]`. -/
theorem counts_and_percentage_in_range (n : Int) (reqs : List Request) (now : Nat)
    (hn : 1 ≤ n ∧ n ≤ 60) :
    ∃ hc0 hc outs, NewHealthCounts n = .ok hc0 ∧ hc0.run reqs = some (hc, outs) ∧
      (∀ v ∈ hc.values, 0 ≤ v.success ∧ 0 ≤ v.failures) ∧
      (hc.Summary now).InRange ∧
      (∀ s ∈ outs, s.InRange) := by
  obtain ⟨hc0, hnew, hwf0, hlive0, _, _, _, _⟩ := newHealthCounts_fresh n hn
  have hp0 : hc0.NonNeg := by
    intro v hv
    rw [(newHealthCounts_values n hc0 hnew).1] at hv
    rw [List.eq_of_mem_replicate hv]
    exact ⟨le_refl _, le_refl _⟩
  obtain ⟨hc, outs, hrun, hwf, hp, _, _, _, houts⟩ :=
    run_invariant HealthCounts.NonNeg (fun _ => True)
      (fun h r h1 o hw hpp _ hs => step_nonNeg h r h1 o hw hpp hs)
      reqs hc0 hwf0 hp0 (fun _ _ => trivial)
  refine ⟨hc0, hc, outs, hnew, hrun, hp, (doSummary_inRange hc now hp).1, ?_⟩
  intro s hs
  obtain ⟨h2, t, _, hp2, hs2⟩ := houts s hs
  rw [hs2]
  exact (doSummary_inRange h2 t hp2).1

/-- Witness of C14: the 3-bucket counter after two successes, a summary and two
failures. -/
theorem counts_and_percentage_in_range_witness :
    ∃ hc0 hc outs, NewHealthCounts 3 = .ok hc0 ∧
      hc0.run mixedRequests = some (hc, outs) ∧
      (hc.Summary 100000005000).InRange ∧ (∀ s ∈ outs, s.InRange) := by
  obtain ⟨hc0, hc, outs, h0, hrun, _, hin, houts⟩ :=
    counts_and_percentage_in_range 3 mixedRequests 100000005000 (by decide)
  exact ⟨hc0, hc, outs, h0, hrun, hin, houts⟩

/-- The markers after a record: a Success stores its clock in `lastSuccess` and
leaves `lastFailure`, a Fail stores its clock in `lastFailure` and leaves
`lastSuccess`. -/
theorem record_marks (hc h1 : HealthCounts) (now now2 : Nat) :
    (hc.doSuccess now now2 = some h1 →
      h1.lastSuccess = now2 ∧ h1.lastFailure = hc.lastFailure) ∧
    (hc.doFail now now2 = some h1 →
      h1.lastFailure = now2 ∧ h1.lastSuccess = hc.lastSuccess) := by
  have hb : ∀ p, hc.bucket now = some p →
      p.1.lastSuccess = hc.lastSuccess ∧ p.1.lastFailure = hc.lastFailure := by
    intro p hp
    unfold HealthCounts.bucket at hp
    cases hi : hc.index now with
    | none => rw [hi] at hp; cases hp
    | some i =>
      cases hv : hc.values[i]? with
      | none =>
        simp only [hi, hv] at hp
        cases hp
      | some v =>
        simp only [hi, hv] at hp
        injection hp with hp
        rw [← hp]
        exact ⟨rfl, rfl⟩
  constructor
  · intro h
    unfold HealthCounts.doSuccess at h
    cases hp : hc.bucket now with
    | none => rw [hp] at h; cases h
    | some p =>
      obtain ⟨h2, h3⟩ := hb p hp
      rw [hp] at h
      obtain ⟨hA, i⟩ := p
      cases hv : hA.values[i]? with
      | none =>
        simp only [hv] at h
        cases h
      | some v =>
        simp only [hv] at h
        injection h with h
        rw [← h]
        exact ⟨rfl, h3⟩
  · intro h
    unfold HealthCounts.doFail at h
    cases hp : hc.bucket now with
    | none => rw [hp] at h; cases h
    | some p =>
      obtain ⟨h2, h3⟩ := hb p hp
      rw [hp] at h
      obtain ⟨hA, i⟩ := p
      cases hv : hA.values[i]? with
      | none =>
        simp only [hv] at h
        cases h
      | some v =>
        simp only [hv] at h
        injection h with h
        rw [← h]
        exact ⟨rfl, h2⟩

/-- After serving requests the markers hold the clock of the last Success and of
the last Fail served, or what they held before when there was none. -/
theorem run_marks (reqs : List Request) (hc h1 : HealthCounts) (outs : List HealthSummary)
    (h : hc.run reqs = some (h1, outs)) :
    h1.lastSuccess = ((reqs.filterMap Request.successMark).getLast?).getD hc.lastSuccess ∧
    h1.lastFailure = ((reqs.filterMap Request.failMark).getLast?).getD hc.lastFailure := by
  induction reqs generalizing hc outs with
  | nil =>
    simp only [HealthCounts.run, Option.some.injEq, Prod.mk.injEq] at h
    rw [← h.1]
    exact ⟨rfl, rfl⟩
  | cons r rs ih =>
    simp only [HealthCounts.run] at h
    cases hs : hc.step r with
    | none => rw [hs] at h; cases h
    | some p =>
      obtain ⟨hA, o1⟩ := p
      rw [hs] at h
      simp only at h
      cases hr : hA.run rs with
      | none => rw [hr] at h; cases h
      | some q =>
        obtain ⟨hB, o2⟩ := q
        rw [hr] at h
        simp only [Option.some.injEq, Prod.mk.injEq] at h
        obtain ⟨ih1, ih2⟩ := ih hA o2 (by rw [hr, h.1])
        obtain ⟨hsu, hfa, hsm⟩ := step_eq hc r hA o1 hs
        cases r with
        | success now now2 =>
          obtain ⟨m1, m2⟩ := (record_marks hc hA now now2).1 (hsu now now2 rfl).1
          rw [ih1, ih2, m1, m2]
          simp only [List.filterMap_cons, Request.successMark, Request.failMark,
            List.getLast?_cons, Option.getD_some]
          exact ⟨trivial, trivial⟩
        | fail now now2 =>
          obtain ⟨m1, m2⟩ := (record_marks hc hA now now2).2 (hfa now now2 rfl).1
          rw [ih1, ih2, m1, m2]
          simp only [List.filterMap_cons, Request.successMark, Request.failMark,
            List.getLast?_cons, Option.getD_some]
          exact ⟨trivial, trivial⟩
        | summary now =>
          rw [ih1, ih2, (hsm now rfl).1]
          simp only [List.filterMap_cons, Request.successMark, Request.failMark]
          exact ⟨trivial, trivial⟩

/-- C13. On a counter made by `NewHealthCounts n` (`n` in `1..60`) that served
any requests, a summary taken at any instant, however long after the events,
returns as LastSuccess the clock taken by the most recent Success served and as
LastFailure the clock taken by the most recent Fail served, unset (zero) when
there was none; and on any counter a Success leaves `lastFailure` unchanged and
a Fail leaves `lastSuccess` unchanged. -/
theorem summary_last_event_markers (n : Int) (reqs : List Request) (now : Nat)
    (hn : 1 ≤ n ∧ n ≤ 60) :
    (∃ hc0 hc outs, NewHealthCounts n = .ok hc0 ∧ hc0.run reqs = some (hc, outs) ∧
      (hc.Summary now).LastSuccess = lastSuccessMark reqs ∧
      (hc.Summary now).LastFailure = lastFailureMark reqs) ∧
    (∀ (h h1 : HealthCounts) (t t2 : Nat),
      (h.doSuccess t t2 = some h1 → h1.lastSuccess = t2 ∧ h1.lastFailure = h.lastFailure) ∧
      (h.doFail t t2 = some h1 → h1.lastFailure = t2 ∧ h1.lastSuccess = h.lastSuccess)) := by
  refine ⟨?_, fun h h1 t t2 => record_marks h h1 t t2⟩
  obtain ⟨hc0, hnew, hwf0, _, _, _, _, _⟩ := newHealthCounts_fresh n hn
  obtain ⟨_, _, _, hlf, hls⟩ := newHealthCounts_values n hc0 hnew
  obtain ⟨hc, outs, hrun, _, _, _, _, _, _⟩ :=
    run_invariant (fun _ => True) (fun _ => True) (fun _ _ _ _ _ _ _ _ => trivial)
      reqs hc0 hwf0 trivial (fun _ _ => trivial)
  obtain ⟨m1, m2⟩ := run_marks reqs hc0 hc outs hrun
  obtain ⟨_, _, _, _, s1, s2⟩ := doSummary_counts hc now
  refine ⟨hc0, hc, outs, hnew, hrun, ?_, ?_⟩
  · show (hc.doSummary now).LastSuccess = _
    rw [s2, m1, hls]
    rfl
  · show (hc.doSummary now).LastFailure = _
    rw [s1, m2, hlf]
    rfl

/-- Witness of C13: a Fail at second 56 and a Success at second 60 on a 7-bucket
counter, read an hour later. -/
theorem summary_last_event_markers_witness :
    ∃ hc0 hc outs, NewHealthCounts 7 = .ok hc0 ∧
      hc0.run aliasingRequests = some (hc, outs) ∧
      (hc.Summary 3660000000000).LastSuccess = 60000000001 ∧
      (hc.Summary 3660000000000).LastFailure = 56000000001 := by
  obtain ⟨hc0, hc, outs, h0, hrun, h1, h2⟩ :=
    (summary_last_event_markers 7 aliasingRequests 3660000000000 (by decide)).1
  exact ⟨hc0, hc, outs, h0, hrun, h1.trans (by decide), h2.trans (by decide)⟩

/-- The sum over the included buckets is the sum over all buckets of the counts
that are included. -/
theorem sum_filter_eq_sum_ite (p : HealthCountsBucket → Bool) (f : HealthCountsBucket → Int)
    (l : List HealthCountsBucket) :
    ((l.filter p).map f).sum = (l.map (fun v => if p v = true then f v else 0)).sum := by
  induction l with
  | nil => rfl
  | cons x l ih =>
    by_cases hp : p x = true
    · rw [List.filter_cons_of_pos hp, List.map_cons, List.sum_cons, List.map_cons,
        List.sum_cons, ih]
      simp only [hp, if_true]
    · rw [List.filter_cons_of_neg hp, List.map_cons, List.sum_cons, ih]
      simp only [hp]
      simp

/-- The windowed sums of a counter in which one bucket was replaced. -/
theorem summary_after_set (hc h1 : HealthCounts) (now i : Nat) (v a : HealthCountsBucket)
    (hv : hc.values[i]? = some v) (hval : h1.values = hc.values.set i a)
    (hwin : h1.window = hc.window) :
    (h1.doSummary now).Success =
      (hc.doSummary now).Success - (if hc.included now v = true then v.success else 0) +
        (if hc.included now a = true then a.success else 0) ∧
    (h1.doSummary now).Failures =
      (hc.doSummary now).Failures - (if hc.included now v = true then v.failures else 0) +
        (if hc.included now a = true then a.failures else 0) := by
  have hinc : h1.included now = hc.included now := by
    funext x
    unfold HealthCounts.included
    rw [hwin]
  obtain ⟨hS1, hF1, _⟩ := doSummary_counts h1 now
  obtain ⟨hS0, hF0, _⟩ := doSummary_counts hc now
  rw [hS1, hF1, hS0, hF0, hinc, hval]
  simp only [sum_filter_eq_sum_ite]
  constructor
  · exact sum_map_set (fun x => if hc.included now x = true then x.success else 0)
      hc.values i v a hv
  · exact sum_map_set (fun x => if hc.included now x = true then x.failures else 0)
      hc.values i v a hv

/-- A record that selects a stale bucket leaves in it exactly the new event. -/
theorem record_stale (hc : HealthCounts) (now now2 : Nat) (i : Nat)
    (v : HealthCountsBucket)
    (hlo : minDuration ≤ hc.window) (hhi : hc.window < maxDuration)
    (hi : hc.index now = some i) (hv : hc.values[i]? = some v)
    (hst : v.lastWrite ≠ 0 ∧ (now : Int) - (v.lastWrite : Int) > hc.window) :
    hc.doSuccess now now2 = some
      { hc with
        values := hc.values.set i { failures := 0, success := 1, lastWrite := now }
        lastSuccess := now2 } ∧
    hc.doFail now now2 = some
      { hc with
        values := hc.values.set i { failures := 1, success := 0, lastWrite := now }
        lastFailure := now2 } := by
  rw [doSuccess_eq hc now now2 i v hi hv, doFail_eq hc now now2 i v hi hv]
  have hgt := (sub_gt_window_iff now v.lastWrite hc.window hlo hhi).mpr hst.2
  have hz : (!Time.IsZero v.lastWrite) = true := by simp [Time.IsZero, hst.1]
  simp [hz, hgt, HealthCountsBucket.reset]

/-- On a well-formed counter whose unset buckets are empty and whose window is
not negative, a record made at a set clock reading adds exactly one of its kind
to the summary taken at the same instant. -/
theorem record_adds_one (hc : HealthCounts) (now now2 : Nat)
    (hwf : hc.WellFormed) (hu : hc.UnsetZero) (hw0 : 0 ≤ hc.window) (hpos : 0 < now) :
    (∃ h1, hc.doSuccess now now2 = some h1 ∧
      (h1.doSummary now).Success = (hc.doSummary now).Success + 1 ∧
      (h1.doSummary now).Failures = (hc.doSummary now).Failures ∧
      (h1.doSummary now).Total = (hc.doSummary now).Total + 1) ∧
    (∃ h1, hc.doFail now now2 = some h1 ∧
      (h1.doSummary now).Failures = (hc.doSummary now).Failures + 1 ∧
      (h1.doSummary now).Success = (hc.doSummary now).Success ∧
      (h1.doSummary now).Total = (hc.doSummary now).Total + 1) := by
  obtain ⟨i, hidx, hlt⟩ := index_lt_length hc now hwf
  obtain ⟨_, _, hlo, hhi⟩ := hwf
  have hv : hc.values[i]? = some hc.values[i] := List.getElem?_eq_getElem hlt
  have hmem : hc.values[i] ∈ hc.values := List.getElem?_mem hv
  have hnew : ∀ (a : HealthCountsBucket), a.lastWrite = now → hc.included now a = true := by
    intro a ha
    rw [included_iff hc now a hlo hhi, ha]
    constructor
    · omega
    · omega
  have htot : ∀ h : HealthCounts,
      (h.doSummary now).Total = (h.doSummary now).Success + (h.doSummary now).Failures :=
    fun h => (doSummary_counts h now).2.2.1
  by_cases hst : (hc.values[i]).lastWrite ≠ 0 ∧
      (now : Int) - ((hc.values[i]).lastWrite : Int) > hc.window
  · obtain ⟨hS, hF⟩ := record_stale hc now now2 i _ hlo hhi hidx hv hst
    have hold : ¬ (hc.included now hc.values[i] = true) := by
      rw [included_iff hc now _ hlo hhi]
      intro hh
      omega
    constructor
    · obtain ⟨s1, s2⟩ := summary_after_set hc
        { hc with
          values := hc.values.set i
            { failures := 0, success := 1, lastWrite := now }
          lastSuccess := now2 }
        now i _
        { failures := 0, success := 1, lastWrite := now } hv rfl rfl
      refine ⟨_, hS, ?_, ?_, ?_⟩
      · rw [s1, if_neg hold, if_pos (hnew _ rfl)]
        simp only
        omega
      · rw [s2, if_neg hold, if_pos (hnew _ rfl)]
        simp only
        omega
      · rw [htot, htot hc, s1, s2, if_neg hold, if_pos (hnew _ rfl), if_neg hold,
          if_pos (hnew _ rfl)]
        simp only
        omega
    · obtain ⟨s1, s2⟩ := summary_after_set hc
        { hc with
          values := hc.values.set i
            { failures := 1, success := 0, lastWrite := now }
          lastFailure := now2 }
        now i _
        { failures := 1, success := 0, lastWrite := now } hv rfl rfl
      refine ⟨_, hF, ?_, ?_, ?_⟩
      · rw [s2, if_neg hold, if_pos (hnew _ rfl)]
        simp only
        omega
      · rw [s1, if_neg hold, if_pos (hnew _ rfl)]
        simp only
        omega
      · rw [htot, htot hc, s1, s2, if_neg hold, if_pos (hnew _ rfl), if_neg hold,
          if_pos (hnew _ rfl)]
        simp only
        omega
  · obtain ⟨hS, hF⟩ := record_fresh hc now now2 i _ hlo hhi hidx hv hst
    have hold : (if hc.included now hc.values[i] = true then (hc.values[i]).success else 0) =
          (hc.values[i]).success ∧
        (if hc.included now hc.values[i] = true then (hc.values[i]).failures else 0) =
          (hc.values[i]).failures := by
      by_cases hin : hc.included now hc.values[i] = true
      · rw [if_pos hin, if_pos hin]
        exact ⟨rfl, rfl⟩
      · rw [if_neg hin, if_neg hin]
        have hz : (hc.values[i]).lastWrite = 0 := by
          by_contra hne
          apply hin
          rw [included_iff hc now _ hlo hhi]
          refine ⟨hne, ?_⟩
          by_contra hgt
          exact hst ⟨hne, by omega⟩
        obtain ⟨z1, z2⟩ := hu _ hmem hz
        exact ⟨z1.symm, z2.symm⟩
    constructor
    · obtain ⟨s1, s2⟩ := summary_after_set hc
        { hc with
          values := hc.values.set i
            { failures := (hc.values[i]).failures, success := (hc.values[i]).success + 1,
              lastWrite := now }
          lastSuccess := now2 }
        now i _
        { failures := (hc.values[i]).failures, success := (hc.values[i]).success + 1,
          lastWrite := now } hv rfl rfl
      refine ⟨_, hS, ?_, ?_, ?_⟩
      · rw [s1, hold.1, if_pos (hnew _ rfl)]
        simp only
        omega
      · rw [s2, hold.2, if_pos (hnew _ rfl)]
        simp only
        omega
      · rw [htot, htot hc, s1, s2, hold.1, hold.2, if_pos (hnew _ rfl), if_pos (hnew _ rfl)]
        simp only
        omega
    · obtain ⟨s1, s2⟩ := summary_after_set hc
        { hc with
          values := hc.values.set i
            { failures := (hc.values[i]).failures + 1, success := (hc.values[i]).success,
              lastWrite := now }
          lastFailure := now2 }
        now i _
        { failures := (hc.values[i]).failures + 1, success := (hc.values[i]).success,
          lastWrite := now } hv rfl rfl
      refine ⟨_, hF, ?_, ?_, ?_⟩
      · rw [s2, hold.2, if_pos (hnew _ rfl)]
        simp only
        omega
      · rw [s1, hold.1, if_pos (hnew _ rfl)]
        simp only
        omega
      · rw [htot, htot hc, s1, s2, hold.1, hold.2, if_pos (hnew _ rfl), if_pos (hnew _ rfl)]
        simp only
        omega

/-- An iteration of the loop whose record, if any, is made at a set clock
reading keeps the unset buckets empty. -/
theorem step_unsetZero (hc : HealthCounts) (r : Request) (h1 : HealthCounts)
    (outs : List HealthSummary) (hwf : hc.WellFormed) (hp : hc.UnsetZero)
    (hq : r.clockSet) (h : hc.step r = some (h1, outs)) : h1.UnsetZero := by
  obtain ⟨hsu, hfa, hsm⟩ := step_eq hc r h1 outs h
  have hnew : ∀ (i : Nat) (a : HealthCountsBucket), a.lastWrite ≠ 0 →
      ∀ v ∈ hc.values.set i a, v.lastWrite = 0 → v.success = 0 ∧ v.failures = 0 := by
    intro i a ha v hv hz
    rcases List.mem_or_eq_of_mem_set hv with hm | hm
    · exact hp v hm hz
    · rw [hm] at hz
      exact absurd hz ha
  cases r with
  | success now now2 =>
    have hpos : 0 < now := hq now rfl
    obtain ⟨i, v, w, _, _, _, _, _, hS, _⟩ := record_total hc now now2 hwf
    have he := (hsu now now2 rfl).1
    rw [hS] at he
    injection he with he
    rw [← he]
    exact hnew i _ (by show now ≠ 0; omega)
  | fail now now2 =>
    have hpos : 0 < now := hq now rfl
    obtain ⟨i, v, w, _, _, _, _, _, _, hF⟩ := record_total hc now now2 hwf
    have he := (hfa now now2 rfl).1
    rw [hF] at he
    injection he with he
    rw [← he]
    exact hnew i _ (by show now ≠ 0; omega)
  | summary now =>
    rw [(hsm now rfl).1]
    exact hp

/-- C18. On every counter reached from `NewHealthCounts n` (`n` in `1..60`) by
serving requests whose records were made at set clock readings, a bucket with
unset lastWrite holds zero counts, and for every set instant `now` a summary
taken at `now` right after recording one Success (resp. Fail) at `now` has
Success (resp. Failures) and Total exactly 1 greater than the summary taken at
`now` right before it, and the other count equal: the reset on write and the
exclusion on read are exact complements. -/
theorem record_adds_one_to_summary (n : Int) (reqs : List Request) (now now2 : Nat)
    (hn : 1 ≤ n ∧ n ≤ 60)
    (hclk : ∀ r ∈ reqs, ∀ t, r.recordTime = some t → 0 < t)
    (hpos : 0 < now) :
    ∃ hc0 hc outs, NewHealthCounts n = .ok hc0 ∧ hc0.run reqs = some (hc, outs) ∧
      (∀ v ∈ hc.values, v.lastWrite = 0 → v.success = 0 ∧ v.failures = 0) ∧
      (∃ h1, hc.Success now now2 = some h1 ∧
        (h1.Summary now).Success = (hc.Summary now).Success + 1 ∧
        (h1.Summary now).Failures = (hc.Summary now).Failures ∧
        (h1.Summary now).Total = (hc.Summary now).Total + 1) ∧
      (∃ h1, hc.Fail now now2 = some h1 ∧
        (h1.Summary now).Failures = (hc.Summary now).Failures + 1 ∧
        (h1.Summary now).Success = (hc.Summary now).Success ∧
        (h1.Summary now).Total = (hc.Summary now).Total + 1) := by
  obtain ⟨hc0, hnew, hwf0, _, hw0, _, _, _⟩ := newHealthCounts_fresh n hn
  have hp0 : hc0.UnsetZero := by
    intro v hv _
    rw [(newHealthCounts_values n hc0 hnew).1] at hv
    rw [List.eq_of_mem_replicate hv]
    exact ⟨rfl, rfl⟩
  obtain ⟨hc, outs, hrun, hwf, hp, _, hw, _, _⟩ :=
    run_invariant HealthCounts.UnsetZero Request.clockSet
      (fun h r h1 o hwf1 hpp hq hs => step_unsetZero h r h1 o hwf1 hpp hq hs)
      reqs hc0 hwf0 hp0 hclk
  have hwin : 0 ≤ hc.window := by
    rw [hw, hw0]
    unfold Second
    omega
  obtain ⟨hS, hF⟩ := record_adds_one hc now now2 hwf hp hwin hpos
  exact ⟨hc0, hc, outs, hnew, hrun, hp, hS, hF⟩

/-- Witness of C18: a Success recorded at second 61 on the 7-bucket counter that
served a Fail at second 56 and a Success at second 60. -/
theorem record_adds_one_to_summary_witness :
    ∃ hc0 hc outs h1, NewHealthCounts 7 = .ok hc0 ∧
      hc0.run aliasingRequests = some (hc, outs) ∧
      hc.Success 61000000000 61000000001 = some h1 ∧
      (h1.Summary 61000000000).Success = (hc.Summary 61000000000).Success + 1 ∧
      (h1.Summary 61000000000).Failures = (hc.Summary 61000000000).Failures ∧
      (h1.Summary 61000000000).Total = (hc.Summary 61000000000).Total + 1 := by
  obtain ⟨hc0, hc, outs, h0, hrun, _, ⟨h1, hS, hSu, hFa, hT⟩, _⟩ :=
    record_adds_one_to_summary 7 aliasingRequests 61000000000 61000000001 (by decide)
      (by
        intro r hr t hrt
        simp only [aliasingRequests, List.mem_cons, List.mem_singleton, List.not_mem_nil,
          or_false] at hr
        rcases hr with rfl | rfl | rfl
        · simp only [Request.recordTime, Option.some.injEq] at hrt
          subst hrt
          decide
        · simp [Request.recordTime] at hrt
        · simp only [Request.recordTime, Option.some.injEq] at hrt
          subst hrt
          decide)
      (by decide)
  exact ⟨hc0, hc, outs, h1, h0, hrun, hS, hSu, hFa, hT⟩

/-- C15, the code at the failing input: with threshold 50 and minimum 3, after
two successes and two failures the summary has Total 4 and an error percentage
of exactly 50, which is not greater than the threshold, and `checkState`
evaluates it as Open, so `update` opens the breaker. -/
theorem checkState_opens_at_equal_percentage :
    NewHealthCounts 2 = .ok counts2 ∧
    counts2.run atThresholdRequests = some (countsAtThreshold, []) ∧
    (breakerAtThreshold.Health 100000004000).Success = 2 ∧
    (breakerAtThreshold.Health 100000004000).Failures = 2 ∧
    (breakerAtThreshold.Health 100000004000).Total = 4 ∧
    (breakerAtThreshold.Health 100000004000).ErrorPercentage = 50 ∧
    ¬ ((breakerAtThreshold.Health 100000004000).ErrorPercentage >
        breakerAtThreshold.options.ErrorsPercentage) ∧
    (breakerAtThreshold.Health 100000004000).Total ≥
      breakerAtThreshold.options.MinimumNumberOfRequest ∧
    breakerAtThreshold.checkState 100000004000 = OpenState ∧
    (breakerAtThreshold.update 100000004000 false).breaker.state = OpenState := by
  have hS : (countsAtThreshold.doSummary 100000004000).Success = 2 := by decide
  have hF : (countsAtThreshold.doSummary 100000004000).Failures = 2 := by decide
  have hT : (countsAtThreshold.doSummary 100000004000).Total = 4 := by decide
  have hE : (countsAtThreshold.doSummary 100000004000).ErrorPercentage = 50 := by
    rw [(doSummary_counts countsAtThreshold 100000004000).2.2.2.1, hT, hF]
    have h4 : ¬ ((4 : Int) = 0) := by decide
    have hp : Float64.mul (Float64.div (Float64.ofInt 2) (Float64.ofInt 4)) Float64.hundred =
        { mant := 7036874417766400, exp := -47 } := by decide
    rw [if_neg h4, hp]
    norm_num [Float64.toRat]
  have hopt : breakerAtThreshold.options.ErrorsPercentage = 50 := rfl
  have hcs : breakerAtThreshold.checkState 100000004000 = OpenState := by
    show checkStateOf OptionsForTest (countsAtThreshold.doSummary 100000004000) = OpenState
    unfold checkStateOf
    rw [hT, hE]
    have h1 : ¬ ((4 : Int) < OptionsForTest.MinimumNumberOfRequest) := by decide
    have h2 : (50 : ℚ) ≥ OptionsForTest.ErrorsPercentage := le_of_eq rfl
    rw [if_neg h1, if_pos h2]
  refine ⟨rfl, rfl, hS, hF, hT, hE, ?_, ?_, hcs, ?_⟩
  · show ¬ ((countsAtThreshold.doSummary 100000004000).ErrorPercentage >
      breakerAtThreshold.options.ErrorsPercentage)
    rw [hE, hopt]
    exact lt_irrefl _
  · show (countsAtThreshold.doSummary 100000004000).Total ≥ _
    rw [hT]
    decide
  · rw [(update_eq breakerAtThreshold 100000004000 false).2]
    exact hcs

/-- C16. Operations that record no outcome change nothing.  Serving a Summary
request (`Health`) leaves the counter as it was and answers `doSummary`; two
reads at the same instant give equal summaries; `State` and `GetOptions` return
the fields; a `Call` that is rejected (no goroutine started) returns
`ErrBreakerOpen`, leaves the breaker, its state, its buckets and its markers as
they were, attempts no notification, does not run the operation, and records
neither a success nor a failure. -/
theorem reads_and_rejected_call_change_nothing {σ : Type} (b : Breaker)
    (fn : σ → Option GoError × σ) (w : σ) (now now2 now3 : Nat) (receiverReady : Bool) :
    b.healthCounts.step (.summary now) = some (b.healthCounts, [b.Health now]) ∧
    b.healthCounts.run [.summary now, .summary now] =
      some (b.healthCounts, [b.Health now, b.Health now]) ∧
    b.State = b.state ∧ b.GetOptions = b.options ∧
    ((b.Call fn w now receiverReady).spawned = none →
      (b.Call fn w now receiverReady).err = some GoError.ErrBreakerOpen ∧
      (b.Call fn w now receiverReady).breaker = b ∧
      (b.Call fn w now receiverReady).world = w ∧
      (b.Call fn w now receiverReady).attempted = [] ∧
      (b.Call fn w now receiverReady).delivered = [] ∧
      (b.Call fn w now receiverReady).breaker.runSpawned
          (b.Call fn w now receiverReady).spawned now now2 now3 receiverReady =
        some { ret := b.state, breaker := b, attempted := [], delivered := [] }) := by
  refine ⟨rfl, rfl, rfl, rfl, ?_⟩
  intro hsp
  have hopen : b.state = OpenState ∧ b.checkState now = OpenState := by
    obtain ⟨hret, _⟩ := update_eq b now receiverReady
    unfold Breaker.Call at hsp
    by_cases hs : b.state = OpenState
    · by_cases hu : (b.update now receiverReady).ret = OpenState
      · exact ⟨hs, hret ▸ hu⟩
      · exfalso
        cases h : (fn w).1 <;> simp [hs, hu, h] at hsp
    · exfalso
      cases h : (fn w).1 <;> simp [hs, h] at hsp
  obtain ⟨h1, h2, h3, h4⟩ := call_open_rejected b fn w now receiverReady hopen.1 hopen.2
  have hst : b.state = b.checkState now := by rw [hopen.1, hopen.2]
  have hat : (b.Call fn w now receiverReady).attempted = [] ∧
      (b.Call fn w now receiverReady).delivered = [] := by
    obtain ⟨hret, _⟩ := update_eq b now receiverReady
    rw [hopen.2] at hret
    unfold Breaker.Call
    simp only [hopen.1, hret, if_true]
    unfold Breaker.update
    rw [if_pos hst]
    exact ⟨rfl, rfl⟩
  refine ⟨h1, h4, h2, hat.1, hat.2, ?_⟩
  rw [h3, h4]
  rfl

/-- C19. A breaker does not open on healthy traffic: on every counter whose
windowed Failures is 0 at the instant of the evaluation (the empty window
included), with `ErrorsPercentage > 0` the policy yields Closed, `update`
returns Closed and leaves the state Closed, and the next `Call` runs its
operation and returns its result.  With `ErrorsPercentage <= 0` and
`MinimumNumberOfRequest <= 0` (and windowed successes that are not negative)
the same evaluation yields Open. -/
theorem never_opens_on_healthy_traffic {σ : Type} (b : Breaker) (now : Nat)
    (receiverReady : Bool)
    (hF : (b.healthCounts.Summary now).Failures = 0) :
    (0 < b.options.ErrorsPercentage →
      b.checkState now = CloseState ∧
      (b.update now receiverReady).ret = CloseState ∧
      (b.update now receiverReady).breaker.state = CloseState ∧
      ∀ (fn : σ → Option GoError × σ) (w : σ) (now1 : Nat) (ready1 : Bool),
        ((b.update now receiverReady).breaker.Call fn w now1 ready1).err = (fn w).1 ∧
        ((b.update now receiverReady).breaker.Call fn w now1 ready1).world = (fn w).2 ∧
        ((b.update now receiverReady).breaker.Call fn w now1 ready1).spawned ≠ none) ∧
    (b.options.ErrorsPercentage ≤ 0 → b.options.MinimumNumberOfRequest ≤ 0 →
      0 ≤ (b.healthCounts.Summary now).Success →
      b.checkState now = OpenState) := by
  have hF' : (b.healthCounts.doSummary now).Failures = 0 := hF
  obtain ⟨_, _, hT, hE, _, _⟩ := doSummary_counts b.healthCounts now
  have hE0 : (b.healthCounts.doSummary now).ErrorPercentage = 0 := by
    rw [hE, hF']
    by_cases h0 : (b.healthCounts.doSummary now).Total = 0
    · rw [if_pos h0]
    · rw [if_neg h0]
      exact float64_percentage_none _
  constructor
  · intro hpos
    have hcs : b.checkState now = CloseState := by
      show checkStateOf b.options (b.healthCounts.doSummary now) = CloseState
      rcases checkStateOf_cases b.options (b.healthCounts.doSummary now) with
        ⟨_, _, h2⟩ | ⟨h, _⟩
      · rw [hE0] at h2
        exact absurd hpos (not_lt.mpr h2)
      · exact h
    obtain ⟨hret, hbr⟩ := update_eq b now receiverReady
    have hst : (b.update now receiverReady).breaker.state = CloseState := by
      rw [hbr]
      exact hcs
    refine ⟨hcs, hret.trans hcs, hst, ?_⟩
    intro fn w now1 ready1
    obtain ⟨c1, c2, _, c4⟩ :=
      call_closed_eq (b.update now receiverReady).breaker fn w now1 ready1 hst
    refine ⟨c1, c2, ?_⟩
    rw [c4]
    simp
  · intro hpct hmin hsucc
    have hsucc' : 0 ≤ (b.healthCounts.doSummary now).Success := hsucc
    show checkStateOf b.options (b.healthCounts.doSummary now) = OpenState
    rcases checkStateOf_cases b.options (b.healthCounts.doSummary now) with
      ⟨h, _⟩ | ⟨_, hn⟩
    · exact h
    · exfalso
      apply hn
      constructor
      · rw [hT, hF']
        show b.options.MinimumNumberOfRequest ≤ _
        omega
      · rw [hE0]
        exact hpct

/-- Witness of C19: the fresh test breaker, whose window is empty, stays Closed
and admits `returnNilError`. -/
theorem never_opens_on_healthy_traffic_witness :
    closedBreaker.checkState 5 = CloseState ∧
    ((closedBreaker.update 5 false).breaker.Call returnNilError 0 6 false).err = none :=
  ⟨((@never_opens_on_healthy_traffic Nat closedBreaker 5 false (by decide)).1
      (by norm_num [closedBreaker, OptionsForTest])).1,
   (((@never_opens_on_healthy_traffic Nat closedBreaker 5 false (by decide)).1
      (by norm_num [closedBreaker, OptionsForTest])).2.2.2 returnNilError 0 6 false).1⟩

end CircuitBreaker
